import Mathlib

/-!
# Verification of the ID-anchored document edit pipeline

Shallow embedding of
`backend/app/features/document_editing/services/document_pipeline.py`:
the node identifier (`add_ids_to_nodes` with `_generate_random_hex_id`),
the tree flattener (`flatten_nodes_to_list` with
`_extract_text_from_content`), the dump/render step
(`dump_flattened_nodes`), the edit reconciler (`_parse_edited_content`)
and the orchestrator (`process_jsonnode`).

Python strings are embedded as `List Char` (`CStr`), JSON values as the
`Json` inductive below.  Randomness (`random.randint` inside
`_generate_random_hex_id`, `uuid.uuid4()` inside `_parse_edited_content`)
is embedded as explicitly injected generators/supplies.
-/

set_option maxHeartbeats 1000000

namespace DocPipeline

/-- Embedded Python string. -/
abbrev CStr := List Char

/-- Coerce a Lean string literal to an embedded Python string. -/
def S (s : String) : CStr := s.toList

/-- Embedded JSON value (the duck-typed trees the pipeline walks).
Objects are insertion-ordered association lists, mirroring Python dicts
(keys of an actual dict are unique). -/
inductive Json where
  | str : CStr → Json
  | num : Int → Json
  | bool : Bool → Json
  | null : Json
  | arr : List Json → Json
  | obj : List (CStr × Json) → Json

/-- `key in node` for a Python dict. -/
def hasKey (es : List (CStr × Json)) (k : CStr) : Bool :=
  es.any (fun e => decide (e.1 = k))

/-- `node[key]` / `node.get(key)` for a Python dict (first matching entry;
real dicts have unique keys). -/
def getVal (es : List (CStr × Json)) (k : CStr) : Option Json :=
  match es.find? (fun e => decide (e.1 = k)) with
  | some e => some e.2
  | none => none

/-- `node[key] = v` for a Python dict: replace the value in place if the
key exists, otherwise append the new entry at the end (insertion order). -/
def setKey (es : List (CStr × Json)) (k : CStr) (v : Json) : List (CStr × Json) :=
  if hasKey es k then
    es.map (fun e => if e.1 = k then (e.1, v) else e)
  else
    es ++ [(k, v)]

/-- Python truthiness of an optional JSON value (`node.get('id')` used as
a condition): absent keys, `None`, empty strings, zero, `False`, empty
lists and empty dicts are falsy. -/
def truthy : Option Json → Bool
  | none => false
  | some (.str s) => !s.isEmpty
  | some (.num n) => n != 0
  | some (.bool b) => b
  | some .null => false
  | some (.arr xs) => !xs.isEmpty
  | some (.obj es) => !es.isEmpty

/-- Python `str.strip()` (leading and trailing whitespace removed; we use
`Char.isWhitespace`, which covers the space, tab, CR and LF characters
exercised by the pipeline). -/
def pyStrip (s : CStr) : CStr :=
  ((s.dropWhile Char.isWhitespace).reverse.dropWhile Char.isWhitespace).reverse

/-- Python `text.split('\n')`. -/
def splitNl : CStr → List CStr
  | [] => [[]]
  | c :: cs =>
      if c = '\n' then [] :: splitNl cs
      else
        match splitNl cs with
        | [] => [[c]]
        | l :: ls => (c :: l) :: ls

/-- Python `'\n'.join(lines)`. -/
def joinNl : List CStr → CStr
  | [] => []
  | [l] => l
  | l :: ls => l ++ '\n' :: joinNl ls

/-- Python `' '.join(parts)`. -/
def joinSpace : List CStr → CStr
  | [] => []
  | [l] => l
  | l :: ls => l ++ ' ' :: joinSpace ls

/-! ## Node identifier (`add_ids_to_nodes`, source lines 88-121)

`_generate_random_hex_id(existing_ids)` (source lines 74-86) draws random
4-hex-digit strings until one is not in `existing_ids`; we embed it as an
injected generator `g : List CStr → CStr` whose loop contract — the value
returned is never in the set passed in, and is a nonempty (4-character)
string — becomes an explicit hypothesis of the theorems that need it.
The `existing_ids` set is embedded as a list used only through membership.

The source sets `node['id']` before iterating `node.items()` and then
recurses into every value, including the `id` entry.  Recursing into the
freshly set id (a string) or into the falsy id value it replaced (a falsy
value is `''`, `0`, `False`, `None`, `[]` or `{}`, on all of which
`add_ids_to_nodes` is the identity and leaves `existing_ids` untouched)
is a no-op, so the embedding equivalently recurses into the original
entries and writes the id entry afterwards with dict-assignment
semantics (`setKey`).  The `node_id` parameter of the source function is
only ever passed along, never read, and is omitted. -/

mutual
def add_ids_to_nodes (g : List CStr → CStr) : Json → List CStr → Json × List CStr
  | .obj es, ex =>
      if hasKey es (S "type") && !truthy (getVal es (S "id")) then
        let nid := g ex
        let p := addIdsEntries g es (nid :: ex)
        (.obj (setKey p.1 (S "id") (.str nid)), p.2)
      else
        let p := addIdsEntries g es ex
        (.obj p.1, p.2)
  | .arr xs, ex =>
      let p := addIdsArr g xs ex
      (.arr p.1, p.2)
  | j, ex => (j, ex)
def addIdsArr (g : List CStr → CStr) : List Json → List CStr → List Json × List CStr
  | [], ex => ([], ex)
  | x :: xs, ex =>
      let p := add_ids_to_nodes g x ex
      let q := addIdsArr g xs p.2
      (p.1 :: q.1, q.2)
def addIdsEntries (g : List CStr → CStr) :
    List (CStr × Json) → List CStr → List (CStr × Json) × List CStr
  | [], ex => ([], ex)
  | (k, v) :: es, ex =>
      let p := add_ids_to_nodes g v ex
      let q := addIdsEntries g es p.2
      ((k, p.1) :: q.1, q.2)
end

/-! ## Tree flattener (`flatten_nodes_to_list`, source lines 123-220, and
`_extract_text_from_content`, source lines 222-245)

The `result` accumulator becomes the returned list; the `current_path`
and `parent_idx` parameters only ever feed path strings that are never
stored in the result and are omitted. -/

/-- One element of the flattened list: `{'id': ..., 'text': ...}`. -/
structure FlatNode where
  id : Json
  text : CStr

/-! `_extract_text_from_content`: collect the parts `' '.join` is applied
to.  For each dict item: a string `text` value is appended verbatim
(even when empty); otherwise a list `content` value is recursively
extracted and appended when the nested text is nonempty. -/
mutual
def extractParts : List Json → List CStr
  | [] => []
  | item :: rest => itemParts item ++ extractParts rest
def itemParts : Json → List CStr
  | .obj es =>
      match getVal es (S "text") with
      | some (.str t) => [t]
      | _ => itemPartsFromContent es
  | _ => []
def itemPartsFromContent : List (CStr × Json) → List CStr
  | [] => []
  | (k, v) :: es =>
      if k = S "content" then
        match v with
        | .arr xs =>
            let nested := joinSpace (extractParts xs)
            if nested.isEmpty then [] else [nested]
        | _ => []
      else itemPartsFromContent es
end

/-- `_extract_text_from_content(content)`. -/
def extract_text_from_content (items : List Json) : CStr :=
  joinSpace (extractParts items)

/-- ID resolution (source lines 146-150): a present `id` key wins (a
`None` value yields no id and blocks the fallback), else `attrs.id` when
`attrs` is a dict containing `id`. -/
def nodeIdOf (es : List (CStr × Json)) : Option Json :=
  if hasKey es (S "id") then
    match getVal es (S "id") with
    | some .null => none
    | some v => some v
    | none => none
  else
    match getVal es (S "attrs") with
    | some (.obj attrs) =>
        if hasKey attrs (S "id") then
          match getVal attrs (S "id") with
          | some .null => none
          | some v => some v
          | none => none
        else none
    | _ => none

/-- Leaf test 1 (source line 156): a string `text` value that is nonempty
after strip. -/
def directTextLeaf (es : List (CStr × Json)) : Bool :=
  match getVal es (S "text") with
  | some (.str t) => !(pyStrip t).isEmpty
  | _ => false

/-- A content item counted by `text_items` (source line 168). -/
def isTextItem : Json → Bool
  | .obj es =>
      match getVal es (S "text") with
      | some (.str t) => !(pyStrip t).isEmpty
      | _ => false
  | _ => false

/-- A content item counted by `nested_content_items` (source line 170). -/
def isNestedItem : Json → Bool
  | .obj es =>
      match getVal es (S "content") with
      | some (.arr _) => true
      | _ => false
  | _ => false

/-- Leaf test 2 (source lines 161-176): a list `content` value with at
least one text item and no nested-content item. -/
def contentLeaf (es : List (CStr × Json)) : Bool :=
  match getVal es (S "content") with
  | some (.arr items) =>
      decide (0 < (items.filter isTextItem).length) &&
      decide ((items.filter isNestedItem).length = 0)
  | _ => false

/-- Emission for a leaf node with an id (source lines 179-193): verbatim
string `text` value if present, else the extracted content text when
nonempty. -/
def emitLeaf (i : Json) (es : List (CStr × Json)) : List FlatNode :=
  match getVal es (S "text") with
  | some (.str t) => [⟨i, t⟩]
  | _ =>
      match getVal es (S "content") with
      | some (.arr items) =>
          let tc := extract_text_from_content items
          if tc.isEmpty then [] else [⟨i, tc⟩]
      | _ => []

/-! `flatten_nodes_to_list` (source lines 123-220).  A dict is emitted as
a leaf when the leaf test passes and it has an id; otherwise its
`children` list, its `content` list and every other dict- or list-valued
entry (keys outside `id, text, children, content, attrs`, in dict order)
are traversed. -/
mutual
def flatten_nodes_to_list : Json → List FlatNode
  | .obj es =>
      match nodeIdOf es, directTextLeaf es || contentLeaf es with
      | some i, true => emitLeaf i es
      | _, _ => flattenChildren es ++ flattenContent es ++ flattenOthers es
  | .arr xs => flattenList xs
  | _ => []
def flattenList : List Json → List FlatNode
  | [] => []
  | x :: xs => flatten_nodes_to_list x ++ flattenList xs
def flattenChildren : List (CStr × Json) → List FlatNode
  | [] => []
  | (k, v) :: es =>
      if k = S "children" then
        match v with
        | .arr xs => flattenList xs
        | _ => []
      else flattenChildren es
def flattenContent : List (CStr × Json) → List FlatNode
  | [] => []
  | (k, v) :: es =>
      if k = S "content" then
        match v with
        | .arr xs => flattenList xs
        | _ => []
      else flattenContent es
def flattenOthers : List (CStr × Json) → List FlatNode
  | [] => []
  | (k, v) :: es =>
      (if k = S "id" ∨ k = S "text" ∨ k = S "children" ∨ k = S "content" ∨ k = S "attrs" then
        []
      else
        match v with
        | .obj _ => flatten_nodes_to_list v
        | .arr _ => flatten_nodes_to_list v
        | _ => []) ++ flattenOthers es
end

/-! ## Dump/render (`dump_flattened_nodes`, source lines 407-424) -/

/-- Comma-join for the container cases of `pyStr`/`pyRepr`. -/
def joinComma (parts : List CStr) : CStr := List.intercalate (S ", ") parts

/-! Python `str()` as applied by the f-string on the node id: scalars
follow Python's `str`; for containers Python falls back to `repr`,
embedded here modulo string-escape details (the pipeline only ever
renders string ids). -/
mutual
def pyStr : Json → CStr
  | .str s => s
  | .num n => S (toString n)
  | .bool b => if b then S "True" else S "False"
  | .null => S "None"
  | .arr xs => S "[" ++ joinComma (pyReprList xs) ++ S "]"
  | .obj es => S "\x7b" ++ joinComma (pyReprEntries es) ++ S "\x7d"
def pyRepr : Json → CStr
  | .str s => S "\x27" ++ s ++ S "\x27"
  | .num n => S (toString n)
  | .bool b => if b then S "True" else S "False"
  | .null => S "None"
  | .arr xs => S "[" ++ joinComma (pyReprList xs) ++ S "]"
  | .obj es => S "\x7b" ++ joinComma (pyReprEntries es) ++ S "\x7d"
def pyReprList : List Json → List CStr
  | [] => []
  | x :: xs => pyRepr x :: pyReprList xs
def pyReprEntries : List (CStr × Json) → List CStr
  | [] => []
  | (k, v) :: es => (S "\x27" ++ k ++ S "\x27: " ++ pyRepr v) :: pyReprEntries es
end

/-- `dump_flattened_nodes(flattened)`: one line `[ID:<id>] <text>` per
node, joined by newlines. -/
def dump_flattened_nodes (flattened : List FlatNode) : CStr :=
  joinNl (flattened.map (fun node => S "[ID:" ++ pyStr node.id ++ S "] " ++ node.text))

/-! ## Edit reconciler (`_parse_edited_content`, source lines 426-529)

The id regex is `\[ID:?\s*([a-zA-Z0-9]+)\]`; `re.search` finds the
leftmost match and `re.sub(id_pattern, '', s, 1)` removes it.  Both are
embedded by the deterministic scanner below (the character classes
`\s*` and `[a-zA-Z0-9]+` are disjoint, and `[a-zA-Z0-9]+` is followed by
the literal `]`, so the regex engine's backtracking never changes the
outcome: at each start position the match is unique, and the leftmost
start position wins).  `str(uuid.uuid4())[:4]` is embedded as an
injected supply `sup : Nat → CStr` consumed in call order. -/

/-- `[a-zA-Z0-9]`. -/
def isAlnum (c : Char) : Bool := c.isAlpha || c.isDigit

/-- Attempt of the id regex just after a literal `[ID`: optional `:`,
then `\s*`, then a nonempty alphanumeric group, then `]`.  Returns the
group and the remainder after the match. -/
def matchIdAfterID (rest : CStr) : Option (CStr × CStr) :=
  let rest1 : CStr := match rest with
    | ':' :: t => t
    | t => t
  let rest2 := rest1.dropWhile Char.isWhitespace
  let grp := rest2.takeWhile isAlnum
  let rest3 := rest2.dropWhile isAlnum
  if grp.isEmpty then none
  else
    match rest3 with
    | ']' :: after => some (grp, after)
    | _ => none

/-- Attempt of the id regex at one start position. -/
def matchIdAt : CStr → Option (CStr × CStr)
  | '[' :: 'I' :: 'D' :: rest => matchIdAfterID rest
  | _ => none

/-- `re.search(id_pattern, s)` together with the effect of
`re.sub(id_pattern, '', s, 1)`: the leftmost match, returned as
(prefix before the match, group 1, suffix after the match). -/
def searchIdTag : CStr → Option (CStr × CStr × CStr)
  | [] => none
  | c :: cs =>
      match matchIdAt (c :: cs) with
      | some (grp, after) => some ([], grp, after)
      | none =>
          match searchIdTag cs with
          | some (pre, grp, after) => some (c :: pre, grp, after)
          | none => none

/-- One element of the returned `path_updates` list:
`{'path': ..., 'content': ..., 'id': ...}` (`path` is `'new'` or `None`). -/
structure PathUpdate where
  path : Option CStr
  content : CStr
  id : CStr
deriving DecidableEq

/-- The loop state of `_parse_edited_content`: the `path_updates` list,
the `processed_ids` set (a Python set, used only through membership) and
the number of `uuid.uuid4()` draws consumed so far. -/
structure ParseState where
  updates : List PathUpdate
  processed : List CStr
  ctr : Nat
deriving DecidableEq

/-- `{node['id']: node for node in original_nodes}` followed by
`original_nodes_by_id[tagged_id]`: for duplicate ids the last node wins;
a parsed (string) id only ever equals a string key. -/
def lookupLast (t : CStr) (origs : List FlatNode) : Option FlatNode :=
  origs.reverse.find? (fun n =>
    match n.id with
    | .str s => decide (s = t)
    | _ => false)

/-- The `[NEW]`-stripped content of one nonblank stripped line
(`content_after_new_tag_processing`): since the `[NEW]` test is
`startswith`, `replace('[NEW]', '', 1)` removes the five-character
prefix. -/
def lineCore (stripped : CStr) : CStr :=
  if List.isPrefixOf (S "[NEW]") stripped then pyStrip (stripped.drop 5) else stripped

/-- The body of the `for paragraph_text in paragraphs` loop (source
lines 455-527), as a state transformer. -/
def parseLineStep (sup : Nat → CStr) (origs : List FlatNode)
    (st : ParseState) (line : CStr) : ParseState :=
  let stripped := pyStrip line
  if stripped.isEmpty then st
  else
    let isNew := List.isPrefixOf (S "[NEW]") stripped
    let core := lineCore stripped
    let tagAndText : Option CStr × CStr :=
      match searchIdTag core with
      | some (pre, grp, after) => (some (pyStrip grp), pyStrip (pre ++ after))
      | none => (none, core)
    let final := if tagAndText.2 = S "(empty)" then [] else tagAndText.2
    if isNew then
      match tagAndText.1 with
      | some t =>
          if t ∈ st.processed then st
          else
            { st with
              updates := st.updates ++ [⟨some (S "new"), final, t⟩],
              processed := t :: st.processed }
      | none =>
          { st with
            updates := st.updates ++ [⟨some (S "new"), final, sup st.ctr⟩],
            ctr := st.ctr + 1 }
    else
      match tagAndText.1 with
      | none => st
      | some t =>
          if t ∈ st.processed then st
          else if List.isPrefixOf (S "[ID:") final ∧ final.length < 15 then st
          else
            let st1 := { st with processed := t :: st.processed }
            match lookupLast t origs with
            | some node =>
                if final = node.text then st1
                else { st1 with updates := st1.updates ++ [⟨none, final, t⟩] }
            | none => st1

/-- `_parse_edited_content(edited_content, original_nodes)`. -/
def parse_edited_content (sup : Nat → CStr) (edited : CStr)
    (origs : List FlatNode) : List PathUpdate :=
  ((splitNl edited).foldl (parseLineStep sup origs) ⟨[], [], 0⟩).updates

/-! ## Pipeline orchestrator (`process_jsonnode`, source lines 531-626)

The orchestrator flattens and dumps the input tree (the comment at
source line 533 reads "we add id of node in frontend"; `add_ids_to_nodes`
is never called), filters the flat list by `selected_nodes_ids` and
builds the prompt (both only feed the external LLM call), then awaits
`generate_text`.  The LLM call is embedded as its outcome
`genOut : Except CStr CStr` (raised exception message, or returned
text).  When the returned text is empty, the source first evaluates
`logging.error(...)` (source line 600) — but `logging` is a local name
of `process_jsonnode`, bound only by the `import logging` statement
inside the `except` handler (source line 620), so the reference raises
`UnboundLocalError`, which the surrounding `try` catches; the dedicated
`{"error": ..., "message": ...}` return at source lines 602-605 is
unreachable and the handler's `{"original", "error", "message"}` object
is returned instead. -/

/-- The dedicated empty-output error message of source line 603
(never actually returned; see above). -/
def emptyContentMsg : CStr := S "LLM返回了空内容，无法进行解析"

/-- `str(e)` for the `UnboundLocalError` raised at source line 600. -/
def unboundLocalLoggingMsg : CStr :=
  S "local variable \x27logging\x27 referenced before assignment"

/-- The result dict of `process_jsonnode`: present keys are `some`. -/
structure ProcResult where
  original : Option CStr
  edited : Option CStr
  message : CStr
  path_updates : Option (List PathUpdate)
  error : Option CStr
deriving DecidableEq

/-- `process_jsonnode(jsonnode, message, selected_text, selected_nodes_ids,
chat_history)`.  `selected_text` is commented out in the source and
`selected_nodes_ids`/`chat_history` only feed the LLM call, so they do
not influence the result beyond `genOut`. -/
def process_jsonnode (genOut : Except CStr CStr) (sup : Nat → CStr)
    (jsonnode : Json) (message : CStr) (_selected_nodes_ids : List CStr) : ProcResult :=
  let flattened := flatten_nodes_to_list jsonnode
  let dumpstr := dump_flattened_nodes flattened
  match genOut with
  | .error e => ⟨some dumpstr, none, message, none, some e⟩
  | .ok edited_content =>
      if edited_content.length = 0 then
        ⟨some dumpstr, none, message, none, some unboundLocalLoggingMsg⟩
      else
        ⟨some dumpstr, some edited_content, message,
          some (parse_edited_content sup edited_content flattened), none⟩

/-! ## Generic lemmas about the embedded string primitives -/

/-- The right-strip half of `pyStrip`, for compositional reasoning. -/
def stripEnd (s : CStr) : CStr := (s.reverse.dropWhile Char.isWhitespace).reverse

theorem pyStrip_eq_stripEnd (s : CStr) :
    pyStrip s = stripEnd (s.dropWhile Char.isWhitespace) := rfl

theorem dropWhile_cons_neg {p : Char → Bool} {c : Char} {s : CStr} (h : p c = false) :
    (c :: s).dropWhile p = c :: s := by
  simp [List.dropWhile_cons, h]

theorem stripEnd_append_last {x : CStr} {d : Char} (hd : d.isWhitespace = false) :
    stripEnd (x ++ [d]) = x ++ [d] := by
  simp [stripEnd, List.reverse_append, dropWhile_cons_neg hd]

theorem pyStrip_cons_of_last {c : Char} {t : CStr} {x : CStr} {d : Char}
    (hc : c.isWhitespace = false) (hd : d.isWhitespace = false) (ht : t = x ++ [d]) :
    pyStrip (c :: t) = c :: t := by
  subst ht
  rw [pyStrip_eq_stripEnd, dropWhile_cons_neg hc]
  have h2 : (c :: (x ++ [d])) = (c :: x) ++ [d] := by simp
  rw [h2, stripEnd_append_last hd]

theorem pyStrip_singleton {c : Char} (hc : c.isWhitespace = false) :
    pyStrip [c] = [c] := by
  rw [pyStrip_eq_stripEnd, dropWhile_cons_neg hc]
  have h2 : [c] = ([] : CStr) ++ [c] := rfl
  rw [h2, stripEnd_append_last hc]

theorem pyStrip_eq_nil_iff {s : CStr} :
    pyStrip s = [] ↔ ∀ c ∈ s, c.isWhitespace = true := by
  unfold pyStrip
  rw [List.reverse_eq_nil_iff, List.dropWhile_eq_nil_iff]
  constructor
  · intro h c hc
    by_cases hmem : c ∈ s.dropWhile Char.isWhitespace
    · exact h c (List.mem_reverse.2 hmem)
    · have hs : c ∈ s.takeWhile Char.isWhitespace ++ s.dropWhile Char.isWhitespace := by
        rw [List.takeWhile_append_dropWhile]; exact hc
      rcases List.mem_append.1 hs with h1 | h1
      · exact List.mem_takeWhile_imp h1
      · exact absurd h1 hmem
  · intro h c hc
    exact h c ((List.dropWhile_suffix Char.isWhitespace).subset (List.mem_reverse.1 hc))

theorem pyStrip_ne_nil {s : CStr} (h : ∃ c ∈ s, c.isWhitespace = false) :
    pyStrip s ≠ [] := by
  intro hnil
  rcases h with ⟨c, hc, hw⟩
  rw [pyStrip_eq_nil_iff.1 hnil c hc] at hw
  cases hw

theorem pyStrip_parts {s : CStr} (h : pyStrip s = s) :
    s.dropWhile Char.isWhitespace = s ∧ stripEnd s = s := by
  have hsuf1 : s.dropWhile Char.isWhitespace <:+ s := List.dropWhile_suffix _
  have hlen2 : (pyStrip s).length ≤ (s.dropWhile Char.isWhitespace).length := by
    have hsuf2 := List.dropWhile_suffix (l := (s.dropWhile Char.isWhitespace).reverse)
      Char.isWhitespace
    have h3 := hsuf2.length_le
    simpa [pyStrip] using h3
  have hlen : (s.dropWhile Char.isWhitespace).length = s.length := by
    have h4 := hsuf1.length_le
    rw [h] at hlen2
    omega
  have h1 : s.dropWhile Char.isWhitespace = s := hsuf1.eq_of_length hlen
  refine ⟨h1, ?_⟩
  have h5 : pyStrip s = stripEnd s := by rw [pyStrip_eq_stripEnd, h1]
  rw [← h5, h]

theorem strip_inv_head {s : CStr} (h : pyStrip s = s) (hne : s ≠ []) :
    ∃ c t, s = c :: t ∧ c.isWhitespace = false := by
  rcases s with _ | ⟨c, t⟩
  · exact absurd rfl hne
  refine ⟨c, t, rfl, ?_⟩
  by_contra hw
  rw [Bool.not_eq_false] at hw
  have h1 := (pyStrip_parts h).1
  rw [List.dropWhile_cons, if_pos hw] at h1
  have h2 := (List.dropWhile_suffix (l := t) Char.isWhitespace).length_le
  have h3 := congrArg List.length h1
  simp at h3
  omega

theorem strip_inv_last {s : CStr} (h : pyStrip s = s) (hne : s ≠ []) :
    ∃ x d, s = x ++ [d] ∧ d.isWhitespace = false := by
  have h2 := (pyStrip_parts h).2
  have h3 : s.reverse.dropWhile Char.isWhitespace = s.reverse := by
    have h4 := congrArg List.reverse h2
    simpa [stripEnd] using h4
  rcases hrev : s.reverse with _ | ⟨d, r⟩
  · rw [List.reverse_eq_nil_iff] at hrev
    exact absurd hrev hne
  have hd : d.isWhitespace = false := by
    by_contra hw
    rw [Bool.not_eq_false] at hw
    rw [hrev, List.dropWhile_cons, if_pos hw] at h3
    have h5 := (List.dropWhile_suffix (l := r) Char.isWhitespace).length_le
    have h6 := congrArg List.length h3
    simp at h6
    omega
  refine ⟨r.reverse, d, ?_, hd⟩
  have h7 := congrArg List.reverse hrev
  simpa using h7

theorem takeWhile_append_all {p : Char → Bool} {a b : CStr} (h : ∀ c ∈ a, p c = true) :
    (a ++ b).takeWhile p = a ++ b.takeWhile p := by
  induction a with
  | nil => rfl
  | cons c t ih =>
      rw [List.cons_append, List.takeWhile_cons, if_pos (h c (List.mem_cons_self c t)),
        ih fun x hx => h x (List.mem_cons_of_mem c hx)]
      simp

theorem dropWhile_append_all {p : Char → Bool} {a b : CStr} (h : ∀ c ∈ a, p c = true) :
    (a ++ b).dropWhile p = b.dropWhile p := by
  induction a with
  | nil => rfl
  | cons c t ih =>
      rw [List.cons_append, List.dropWhile_cons, if_pos (h c (List.mem_cons_self c t))]
      exact ih fun x hx => h x (List.mem_cons_of_mem c hx)

theorem pyStrip_all_not_ws {s : CStr} (h : ∀ c ∈ s, c.isWhitespace = false) :
    pyStrip s = s := by
  rcases s with _ | ⟨c, t⟩
  · rfl
  rcases ht : t.reverse with _ | ⟨d, r⟩
  · rw [List.reverse_eq_nil_iff] at ht
    subst ht
    exact pyStrip_singleton (h c (List.mem_cons_self c []))
  · have h1 : t = r.reverse ++ [d] := by
      have h2 := congrArg List.reverse ht
      simpa using h2
    refine pyStrip_cons_of_last (h c (List.mem_cons_self c t)) ?_ h1
    refine h d (List.mem_cons_of_mem c ?_)
    rw [h1]
    simp

/-! Character-class facts. -/

theorem ws_char_cases {c : Char} (h : c.isWhitespace = true) :
    c = ' ' ∨ c = '\t' ∨ c = '\r' ∨ c = '\n' := by
  revert h
  simp only [Char.isWhitespace]
  intro h
  rcases Bool.or_eq_true_iff.1 h with h1 | h1
  · rcases Bool.or_eq_true_iff.1 h1 with h2 | h2
    · rcases Bool.or_eq_true_iff.1 h2 with h3 | h3
      · exact Or.inl (by exact_mod_cast of_decide_eq_true h3)
      · exact Or.inr (Or.inl (by exact_mod_cast of_decide_eq_true h3))
    · exact Or.inr (Or.inr (Or.inl (by exact_mod_cast of_decide_eq_true h2)))
  · exact Or.inr (Or.inr (Or.inr (by exact_mod_cast of_decide_eq_true h1)))

theorem isAlnum_not_ws {c : Char} (h : isAlnum c = true) : c.isWhitespace = false := by
  by_contra hw
  rw [Bool.not_eq_false] at hw
  rcases ws_char_cases hw with h1 | h1 | h1 | h1 <;> subst h1 <;> revert h <;> decide

theorem isAlnum_ne_lbrack {c : Char} (h : isAlnum c = true) : c ≠ '[' := by
  intro h1
  subst h1
  revert h
  decide

theorem isAlnum_ne_rbrack {c : Char} (h : isAlnum c = true) : c ≠ ']' := by
  intro h1
  subst h1
  revert h
  decide

theorem isAlnum_ne_nl {c : Char} (h : isAlnum c = true) : c ≠ '\n' := by
  intro h1
  subst h1
  revert h
  decide

theorem joinNl_cons_cons {l l2 : CStr} {tl : List CStr} :
    joinNl (l :: l2 :: tl) = l ++ '\n' :: joinNl (l2 :: tl) := rfl

theorem joinSpace_cons_cons {l l2 : CStr} {tl : List CStr} :
    joinSpace (l :: l2 :: tl) = l ++ ' ' :: joinSpace (l2 :: tl) := rfl

/-! `splitNl` / `joinNl` round trip. -/

theorem splitNl_no_nl {l : CStr} (h : '\n' ∉ l) : splitNl l = [l] := by
  induction l with
  | nil => rfl
  | cons c t ih =>
      have hc : c ≠ '\n' := fun h1 => h (h1 ▸ List.mem_cons_self c t)
      rw [splitNl, if_neg hc, ih fun h1 => h (List.mem_cons_of_mem c h1)]

theorem splitNl_append_nl {l r : CStr} (h : '\n' ∉ l) :
    splitNl (l ++ '\n' :: r) = l :: splitNl r := by
  induction l with
  | nil => rw [List.nil_append, splitNl, if_pos rfl]
  | cons c t ih =>
      have hc : c ≠ '\n' := fun h1 => h (h1 ▸ List.mem_cons_self c t)
      rw [List.cons_append, splitNl, if_neg hc, ih fun h1 => h (List.mem_cons_of_mem c h1)]

theorem splitNl_joinNl {ls : List CStr} (hne : ls ≠ []) (h : ∀ l ∈ ls, '\n' ∉ l) :
    splitNl (joinNl ls) = ls := by
  induction ls with
  | nil => exact absurd rfl hne
  | cons l tl ih =>
      rcases tl with _ | ⟨l2, tl2⟩
      · exact splitNl_no_nl (h l (List.mem_cons_self l []))
      · rw [joinNl_cons_cons, splitNl_append_nl (h l (List.mem_cons_self l _)),
          ih (by simp) fun x hx => h x (List.mem_cons_of_mem l hx)]

/-! `joinSpace` membership. -/

theorem mem_joinSpace_of_mem {parts : List CStr} {l : CStr} {c : Char}
    (hl : l ∈ parts) (hc : c ∈ l) : c ∈ joinSpace parts := by
  induction parts with
  | nil => cases hl
  | cons p tl ih =>
      rcases tl with _ | ⟨p2, tl2⟩
      · rcases List.mem_singleton.1 hl with rfl
        exact hc
      · rw [joinSpace_cons_cons]
        rcases List.mem_cons.1 hl with rfl | h1
        · exact List.mem_append.2 (Or.inl hc)
        · exact List.mem_append.2 (Or.inr (List.mem_cons_of_mem _ (ih h1)))

/-! ## Lemmas about the id-tag scanner -/

theorem matchIdAt_cons_ne_lbrack {c : Char} {l : CStr} (h : c ≠ '[') :
    matchIdAt (c :: l) = none := by
  rw [matchIdAt.eq_def]
  split
  · rename_i heq
    rw [List.cons.injEq] at heq
    exact absurd heq.1 h
  · rfl

theorem matchIdAt_lbrack_ne_I {c : Char} {l : CStr} (h : c ≠ 'I') :
    matchIdAt ('[' :: c :: l) = none := by
  rw [matchIdAt.eq_def]
  split
  · rename_i heq
    rw [List.cons.injEq, List.cons.injEq] at heq
    exact absurd heq.2.1 h
  · rfl

theorem matchIdAt_nil : matchIdAt [] = none := rfl

theorem searchIdTag_cons_none {c : Char} {cs : CStr} (h : matchIdAt (c :: cs) = none) :
    searchIdTag (c :: cs) =
      match searchIdTag cs with
      | some (pre, grp, after) => some (c :: pre, grp, after)
      | none => none := by
  rw [searchIdTag, h]

theorem searchIdTag_append_no_lbrack {a r : CStr} (h : ∀ c ∈ a, c ≠ '[') :
    searchIdTag (a ++ r) = (searchIdTag r).map (fun q => (a ++ q.1, q.2.1, q.2.2)) := by
  induction a with
  | nil =>
      simp only [List.nil_append]
      rcases hr : searchIdTag r with _ | ⟨pre, grp, after⟩ <;> simp [Option.map]
  | cons c t ih =>
      rw [List.cons_append,
        searchIdTag_cons_none (matchIdAt_cons_ne_lbrack (h c (List.mem_cons_self c t))),
        ih fun x hx => h x (List.mem_cons_of_mem c hx)]
      rcases hr : searchIdTag r with _ | ⟨pre, grp, after⟩ <;> simp [Option.map]

theorem searchIdTag_alnum_append {a r : CStr} (h : ∀ c ∈ a, isAlnum c = true) :
    searchIdTag (a ++ r) = (searchIdTag r).map (fun q => (a ++ q.1, q.2.1, q.2.2)) :=
  searchIdTag_append_no_lbrack fun c hc => isAlnum_ne_lbrack (h c hc)

/-- The scanner succeeds on a well-formed rendered tag `[ID:<x>]` and
returns the rest of the line untouched. -/
theorem searchIdTag_tag_prefix {x r : CStr} (hne : x ≠ []) (hx : ∀ c ∈ x, isAlnum c = true) :
    searchIdTag (S "[ID:" ++ x ++ ']' :: r) = some ([], x, r) := by
  have hmatch : matchIdAt (S "[ID:" ++ x ++ ']' :: r) = some (x, r) := by
    show matchIdAt ('[' :: 'I' :: 'D' :: ':' :: (x ++ ']' :: r)) = some (x, r)
    rw [matchIdAt]
    show matchIdAfterID (':' :: (x ++ ']' :: r)) = some (x, r)
    rw [matchIdAfterID]
    rcases x with _ | ⟨c, t⟩
    · exact absurd rfl hne
    have hdrop : ((c :: t) ++ ']' :: r).dropWhile Char.isWhitespace = (c :: t) ++ ']' :: r :=
      dropWhile_cons_neg (isAlnum_not_ws (hx c (List.mem_cons_self c t)))
    simp only [hdrop]
    have htake : ((c :: t) ++ ']' :: r).takeWhile isAlnum = (c :: t) ++ (']' :: r).takeWhile isAlnum :=
      takeWhile_append_all hx
    have hdrop2 : ((c :: t) ++ ']' :: r).dropWhile isAlnum = (']' :: r).dropWhile isAlnum :=
      dropWhile_append_all hx
    have h1 : (']' :: r).takeWhile isAlnum = [] := by
      rw [List.takeWhile_cons, if_neg (by decide)]
    have h2 : (']' :: r).dropWhile isAlnum = ']' :: r := dropWhile_cons_neg (by decide)
    rw [htake, hdrop2, h1, h2]
    simp
  have hshape : S "[ID:" ++ x ++ ']' :: r = '[' :: ('I' :: 'D' :: ':' :: (x ++ ']' :: r)) := rfl
  rw [hshape] at hmatch ⊢
  rw [searchIdTag, hmatch]

/-! ## Evaluation of the reconciler on rendered tag lines -/

theorem stripEnd_append_ws {x : CStr} {d : Char} (hd : d.isWhitespace = true) :
    stripEnd (x ++ [d]) = stripEnd x := by
  simp [stripEnd, List.reverse_append, List.dropWhile_cons, hd]

/-- Stripping a rendered line `[ID:<x>] <text>` with strip-invariant text:
the trailing space survives exactly when the text is nonempty. -/
theorem pyStrip_tag_line {x text : CStr} (htext : pyStrip text = text) :
    pyStrip (S "[ID:" ++ x ++ S "] " ++ text) =
      S "[ID:" ++ x ++ ']' :: (if text = [] then [] else ' ' :: text) := by
  rcases htextnil : text with _ | ⟨c0, t0⟩
  · have hshape : S "[ID:" ++ x ++ S "] " ++ ([] : CStr) =
        '[' :: (('I' :: 'D' :: ':' :: (x ++ [']'])) ++ [' ']) := by simp [S]
    rw [hshape, pyStrip_eq_stripEnd, dropWhile_cons_neg (by decide)]
    have h1 : ('[' :: (('I' :: 'D' :: ':' :: (x ++ [']'])) ++ [' '])) =
        ('[' :: 'I' :: 'D' :: ':' :: (x ++ [']'])) ++ [' '] := by simp
    rw [h1, stripEnd_append_ws (by decide)]
    have h2 : ('[' :: 'I' :: 'D' :: ':' :: (x ++ [']'])) =
        ('[' :: 'I' :: 'D' :: ':' :: x) ++ [']'] := by simp
    rw [h2, stripEnd_append_last (by decide)]
    simp [S]
  · rw [← htextnil]
    have hne : text ≠ [] := by rw [htextnil]; simp
    rcases strip_inv_last htext hne with ⟨tx, d, htx, hd⟩
    have hshape : S "[ID:" ++ x ++ S "] " ++ text =
        '[' :: (('I' :: 'D' :: ':' :: (x ++ (']' :: ' ' :: tx))) ++ [d]) := by
      rw [htx]; simp [S]
    rw [hshape, pyStrip_cons_of_last (by decide) hd rfl]
    rw [if_neg hne, htx]
    simp [S]

theorem isPrefixOf_NEW_false {u : CStr} :
    List.isPrefixOf (S "[NEW]") ('[' :: 'I' :: u) = false := by
  show List.isPrefixOf ('[' :: 'N' :: 'E' :: 'W' :: ']' :: []) ('[' :: 'I' :: u) = false
  simp [List.isPrefixOf]

/-- Evaluation of one reconciler loop iteration on a rendered line
`[ID:<x>] <text>` for an alphanumeric id and strip-invariant text. -/
theorem parseLineStep_tag_line {sup : Nat → CStr} {origs : List FlatNode}
    {st : ParseState} {x text : CStr}
    (hne : x ≠ []) (hx : ∀ c ∈ x, isAlnum c = true) (htext : pyStrip text = text) :
    parseLineStep sup origs st (S "[ID:" ++ x ++ S "] " ++ text) =
      (let final : CStr := if text = S "(empty)" then [] else text
       if x ∈ st.processed then st
       else if List.isPrefixOf (S "[ID:") final ∧ final.length < 15 then st
       else
         let st1 := { st with processed := x :: st.processed }
         match lookupLast x origs with
         | some node =>
             if final = node.text then st1
             else { st1 with updates := st1.updates ++ [⟨none, final, x⟩] }
         | none => st1) := by
  have hstrip := pyStrip_tag_line (x := x) htext
  have hxstrip : pyStrip x = x :=
    pyStrip_all_not_ws fun c hc => isAlnum_not_ws (hx c hc)
  have hsearch : searchIdTag (S "[ID:" ++ x ++ ']' :: (if text = [] then [] else ' ' :: text)) =
      some ([], x, if text = [] then [] else ' ' :: text) :=
    searchIdTag_tag_prefix hne hx
  have hfinalraw : pyStrip (if text = [] then ([] : CStr) else ' ' :: text) = text := by
    rcases htn : text with _ | ⟨c0, t0⟩
    · simp [pyStrip]
    · rw [← htn, if_neg (by rw [htn]; simp)]
      rw [pyStrip_eq_stripEnd, List.dropWhile_cons, if_pos (by decide),
        (pyStrip_parts htext).1]
      exact (pyStrip_parts htext).2
  have hempty : (S "[ID:" ++ x ++ ']' :: (if text = [] then ([] : CStr) else ' ' :: text)).isEmpty
      = false := by simp [S]
  have hnew : List.isPrefixOf (S "[NEW]")
      (S "[ID:" ++ x ++ ']' :: (if text = [] then ([] : CStr) else ' ' :: text)) = false := by
    show List.isPrefixOf (S "[NEW]")
      ('[' :: 'I' :: 'D' :: ':' :: (x ++ ']' :: (if text = [] then ([] : CStr) else ' ' :: text)))
      = false
    exact isPrefixOf_NEW_false
  have hcore : lineCore (S "[ID:" ++ x ++ ']' :: (if text = [] then ([] : CStr) else ' ' :: text))
      = S "[ID:" ++ x ++ ']' :: (if text = [] then ([] : CStr) else ' ' :: text) := by
    rw [lineCore, if_neg (by rw [hnew]; exact Bool.false_ne_true)]
  simp only [parseLineStep, hstrip, hempty, hnew, hcore, hsearch, List.nil_append,
    hxstrip, hfinalraw, Bool.false_eq_true, if_false]

/-! ## Round-trip reconciliation (towards claims C1 and C4) -/

/-- The string id of a flat node (the hypotheses of the round-trip
theorems require all ids to be strings). -/
def flatIdStr (n : FlatNode) : CStr :=
  match n.id with
  | .str s => s
  | _ => []

theorem lookupLast_nodup {flat : List FlatNode} {n : FlatNode}
    (h1 : ∀ m ∈ flat, ∃ s, m.id = Json.str s)
    (h2 : (flat.map flatIdStr).Nodup)
    (hn : n ∈ flat) : lookupLast (flatIdStr n) flat = some n := by
  unfold lookupLast
  rcases hfind : List.find? (fun m =>
      match m.id with
      | .str s => decide (s = flatIdStr n)
      | _ => false) flat.reverse with _ | m
  · exfalso
    have hall := List.find?_eq_none.1 hfind n (List.mem_reverse.2 hn)
    obtain ⟨s, hs⟩ := h1 n hn
    apply hall
    rw [hs]
    have : flatIdStr n = s := by rw [flatIdStr, hs]
    rw [this]
    simp
  · have hp := List.find?_some hfind
    have hm : m ∈ flat := List.mem_reverse.1 (List.mem_of_find?_eq_some hfind)
    obtain ⟨sm, hsm⟩ := h1 m hm
    rw [hsm] at hp
    have hsm2 : sm = flatIdStr n := of_decide_eq_true hp
    have hfm : flatIdStr m = flatIdStr n := by rw [flatIdStr, hsm, hsm2]
    have heq := List.inj_on_of_nodup_map h2 hm hn hfm
    rw [heq] at hfind
    exact hfind

/-- The rendered line of one flat node, as reconciled. -/
def renderLine (n : FlatNode) : CStr := S "[ID:" ++ flatIdStr n ++ S "] " ++ n.text

theorem roundtrip_fold {sup : Nat → CStr} {flat : List FlatNode}
    (h1 : ∀ m ∈ flat, ∃ s, m.id = Json.str s ∧ s ≠ [] ∧ ∀ c ∈ s, isAlnum c = true)
    (h2 : (flat.map flatIdStr).Nodup)
    (h3 : ∀ m ∈ flat, pyStrip m.text = m.text ∧ m.text ≠ S "(empty)") :
    ∀ (rest pre : List FlatNode) (st : ParseState), flat = pre ++ rest →
      st.updates = [] → (∀ p ∈ st.processed, p ∉ rest.map flatIdStr) →
      ((rest.map renderLine).foldl (parseLineStep sup flat) st).updates = [] := by
  intro rest
  induction rest with
  | nil => intro pre st _ hupd _; simpa using hupd
  | cons n rest ih =>
      intro pre st hflat hupd hproc
      have hnmem : n ∈ flat := by
        rw [hflat]; exact List.mem_append.2 (Or.inr (List.mem_cons_self _ _))
      obtain ⟨s, hs, hsne, hsa⟩ := h1 n hnmem
      have hid : flatIdStr n = s := by rw [flatIdStr, hs]
      obtain ⟨htext, hnem⟩ := h3 n hnmem
      have hxproc : flatIdStr n ∉ st.processed := fun hmem =>
        hproc _ hmem (by exact List.mem_map_of_mem flatIdStr (List.mem_cons_self n rest))
      have hxrest : flatIdStr n ∉ rest.map flatIdStr := by
        have h2' : ((pre ++ n :: rest).map flatIdStr).Nodup := hflat ▸ h2
        rw [List.map_append, List.map_cons] at h2'
        exact (List.nodup_cons.1 h2'.of_append_right).1
      have hproc' : ∀ p ∈ flatIdStr n :: st.processed, p ∉ rest.map flatIdStr := by
        intro p hp
        rcases List.mem_cons.1 hp with rfl | hp2
        · exact hxrest
        · intro hp3
          exact hproc p hp2 (List.mem_map.2 (by
            obtain ⟨q, hq1, hq2⟩ := List.mem_map.1 hp3
            exact ⟨q, List.mem_cons_of_mem n hq1, hq2⟩))
      have hproc'' : ∀ p ∈ st.processed, p ∉ rest.map flatIdStr := fun p hp =>
        hproc' p (List.mem_cons_of_mem _ hp)
      rw [List.map_cons, List.foldl_cons]
      rw [renderLine, parseLineStep_tag_line (by rw [hid]; exact hsne)
        (by rw [hid]; exact hsa) htext]
      simp only [if_neg hnem, if_neg hxproc]
      have hflat' : flat = (pre ++ [n]) ++ rest := by rw [hflat]; simp
      by_cases hguard : List.isPrefixOf (S "[ID:") n.text = true ∧ n.text.length < 15
      · rw [if_pos hguard]
        exact ih (pre ++ [n]) st hflat' hupd hproc''
      · rw [if_neg hguard]
        have hlook : lookupLast (flatIdStr n) flat = some n :=
          lookupLast_nodup (fun m hm => ⟨(h1 m hm).choose, (h1 m hm).choose_spec.1⟩) h2 hnmem
        rw [hlook]
        simp only [if_pos rfl]
        exact ih (pre ++ [n]) ⟨st.updates, flatIdStr n :: st.processed, st.ctr⟩
          hflat' hupd hproc'

theorem parseLineStep_congr {sup : Nat → CStr} {origs : List FlatNode} {st : ParseState}
    {l1 l2 : CStr} (h : pyStrip l1 = pyStrip l2) :
    parseLineStep sup origs st l1 = parseLineStep sup origs st l2 := by
  unfold parseLineStep
  rw [h]

theorem roundtrip_flat {sup : Nat → CStr} {flat : List FlatNode}
    (h1 : ∀ m ∈ flat, ∃ s, m.id = Json.str s ∧ s ≠ [] ∧ ∀ c ∈ s, isAlnum c = true)
    (h2 : (flat.map flatIdStr).Nodup)
    (h3 : ∀ m ∈ flat, pyStrip m.text = m.text ∧ '\n' ∉ m.text ∧ m.text ≠ S "(empty)") :
    parse_edited_content sup (dump_flattened_nodes flat) flat = [] := by
  have hdump : dump_flattened_nodes flat = joinNl (flat.map renderLine) := by
    unfold dump_flattened_nodes renderLine
    congr 1
    apply List.map_congr_left
    intro m hm
    obtain ⟨s, hs, _, _⟩ := h1 m hm
    have hid : flatIdStr m = s := by rw [flatIdStr, hs]
    rw [hs, hid, pyStr]
  have hnl : ∀ l ∈ flat.map renderLine, '\n' ∉ l := by
    intro l hl
    obtain ⟨m, hm, rfl⟩ := List.mem_map.1 hl
    obtain ⟨s, hs, _, hsa⟩ := h1 m hm
    have hid : flatIdStr m = s := by rw [flatIdStr, hs]
    intro hmem
    rw [renderLine] at hmem
    rcases List.mem_append.1 hmem with h4 | h4
    · rcases List.mem_append.1 h4 with h5 | h5
      · rcases List.mem_append.1 h5 with h6 | h6
        · revert h6; decide
        · rw [hid] at h6
          exact absurd rfl (isAlnum_ne_nl (hsa _ h6))
      · revert h5; decide
    · exact absurd h4 ((h3 m hm).2.1)
  rcases hfl : flat with _ | ⟨n0, flat0⟩
  · rfl
  · rw [← hfl, hdump]
    unfold parse_edited_content
    rw [splitNl_joinNl (by rw [hfl]; simp) hnl]
    exact roundtrip_fold h1 h2 (fun m hm => ⟨(h3 m hm).1, (h3 m hm).2.2⟩) flat [] ⟨[], [], 0⟩
      rfl rfl (by simp)

/-! ## Concrete inputs used by counterexamples and witnesses -/

/-- A generator/supply constant; any value will do where the contract of
`_generate_random_hex_id` is irrelevant. -/
def gC : List CStr → CStr := fun _ => S "ffff"

/-- A uuid-prefix supply constant. -/
def supC : Nat → CStr := fun _ => S "ffff"

/-- A type-bearing node that already carries an id and whose text has
leading/trailing whitespace. -/
def c1tree : Json :=
  .obj [(S "type", .str (S "p")), (S "id", .str (S "a1")), (S "text", .str (S " x "))]

/-- A well-behaved two-paragraph document with ids assigned. -/
def c1good : Json :=
  .obj [(S "type", .str (S "doc")), (S "content", .arr
    [.obj [(S "type", .str (S "p")), (S "id", .str (S "a1")), (S "text", .str (S "Hello"))],
     .obj [(S "type", .str (S "p")), (S "id", .str (S "b2")), (S "text", .str (S "World"))]])]

/-- Claim C1: round-trip identity.  The claim quantifies over all trees
with ids assigned and promises `reconcile(render(flatten(T)), flatten(T))
= []` even for texts with leading/trailing whitespace or the literal
`(empty)`.  Counterexample: `c1tree` is fixed by `assign_ids` (its node
already has an id), its flattened text is `" x "`, and reconciling the
rendered dump against the flat list yields a spurious update that
replaces `" x "` by its stripped form `"x"`. -/
theorem C1_roundtrip_counterexample :
    (add_ids_to_nodes gC c1tree []).1 = c1tree ∧
    parse_edited_content supC (dump_flattened_nodes (flatten_nodes_to_list c1tree))
      (flatten_nodes_to_list c1tree) = [⟨none, S "x", S "a1"⟩] ∧
    parse_edited_content supC (dump_flattened_nodes (flatten_nodes_to_list c1tree))
      (flatten_nodes_to_list c1tree) ≠ [] := by
  have e2 : parse_edited_content supC (dump_flattened_nodes (flatten_nodes_to_list c1tree))
      (flatten_nodes_to_list c1tree) = [⟨none, S "x", S "a1"⟩] := rfl
  refine ⟨rfl, e2, ?_⟩
  rw [e2]
  exact List.cons_ne_nil _ _

/-- Claim C1 (amended): round-trip identity holds for every tree whose
flattened nodes all carry nonempty alphanumeric string ids, pairwise
distinct, and whose texts are strip-invariant, newline-free and differ
from the literal `(empty)`: then
`reconcile(render(flatten(T)), flatten(T)) = []`. -/
theorem C1_roundtrip_amended (t : Json) (sup : Nat → CStr)
    (h1 : ∀ m ∈ flatten_nodes_to_list t,
      ∃ s, m.id = Json.str s ∧ s ≠ [] ∧ ∀ c ∈ s, isAlnum c = true)
    (h2 : ((flatten_nodes_to_list t).map flatIdStr).Nodup)
    (h3 : ∀ m ∈ flatten_nodes_to_list t,
      pyStrip m.text = m.text ∧ '\n' ∉ m.text ∧ m.text ≠ S "(empty)") :
    parse_edited_content sup (dump_flattened_nodes (flatten_nodes_to_list t))
      (flatten_nodes_to_list t) = [] :=
  roundtrip_flat h1 h2 h3

/-- Witness for C1 (amended) at the concrete two-paragraph tree. -/
theorem C1_roundtrip_amended_witness :
    (∀ m ∈ flatten_nodes_to_list c1good,
      ∃ s, m.id = Json.str s ∧ s ≠ [] ∧ ∀ c ∈ s, isAlnum c = true) ∧
    ((flatten_nodes_to_list c1good).map flatIdStr).Nodup ∧
    (∀ m ∈ flatten_nodes_to_list c1good,
      pyStrip m.text = m.text ∧ '\n' ∉ m.text ∧ m.text ≠ S "(empty)") ∧
    parse_edited_content supC (dump_flattened_nodes (flatten_nodes_to_list c1good))
      (flatten_nodes_to_list c1good) = [] := by
  have hflat : flatten_nodes_to_list c1good =
      [⟨.str (S "a1"), S "Hello"⟩, ⟨.str (S "b2"), S "World"⟩] := rfl
  have h1 : ∀ m ∈ flatten_nodes_to_list c1good,
      ∃ s, m.id = Json.str s ∧ s ≠ [] ∧ ∀ c ∈ s, isAlnum c = true := by
    intro m hm
    rw [hflat] at hm
    rcases List.mem_cons.1 hm with rfl | hm2
    · exact ⟨S "a1", rfl, by decide, by decide⟩
    rcases List.mem_cons.1 hm2 with rfl | hm3
    · exact ⟨S "b2", rfl, by decide, by decide⟩
    cases hm3
  have h2 : ((flatten_nodes_to_list c1good).map flatIdStr).Nodup := by
    rw [hflat]
    decide
  have h3 : ∀ m ∈ flatten_nodes_to_list c1good,
      pyStrip m.text = m.text ∧ '\n' ∉ m.text ∧ m.text ≠ S "(empty)" := by
    intro m hm
    rw [hflat] at hm
    rcases List.mem_cons.1 hm with rfl | hm2
    · exact ⟨by decide, by decide, by decide⟩
    rcases List.mem_cons.1 hm2 with rfl | hm3
    · exact ⟨by decide, by decide, by decide⟩
    cases hm3
  exact ⟨h1, h2, h3, C1_roundtrip_amended c1good supC h1 h2 h3⟩

/-- Claim C4: unchanged-line handling.  The claim promises that a line
consisting solely of `[ID:x]` emits no update for every original text of
`x`, including non-empty text.  Counterexample: against an original
`{id: "a1", text: "Hello"}`, the line `[ID:a1]` parses to the empty
final text, which differs from `"Hello"`, so a clearing update
`{path: None, content: "", id: "a1"}` is emitted. -/
theorem C4_unchanged_line_counterexample :
    parse_edited_content supC (S "[ID:a1]") [⟨.str (S "a1"), S "Hello"⟩]
      = [⟨none, [], S "a1"⟩] ∧
    parse_edited_content supC (S "[ID:a1]") [⟨.str (S "a1"), S "Hello"⟩] ≠ [] := by
  have e : parse_edited_content supC (S "[ID:a1]") [⟨.str (S "a1"), S "Hello"⟩]
      = [⟨none, [], S "a1"⟩] := rfl
  refine ⟨e, ?_⟩
  rw [e]
  exact List.cons_ne_nil _ _

/-- Claim C4 (amended): a response line consisting solely of `[ID:x]`
(for an id `x` found in the original list) is treated as unchanged
exactly when the original text is empty; for a non-empty original text
the reconciler emits the clearing update `{path: None, content: "",
id: x}`. -/
theorem C4_unchanged_line_amended {sup : Nat → CStr} {origs : List FlatNode}
    {x : CStr} {node : FlatNode}
    (hne : x ≠ []) (hx : ∀ c ∈ x, isAlnum c = true)
    (hlook : lookupLast x origs = some node) :
    parse_edited_content sup (S "[ID:" ++ x ++ S "]") origs =
      if node.text = [] then [] else [⟨none, [], x⟩] := by
  have hnl : '\n' ∉ S "[ID:" ++ x ++ S "]" := by
    intro hmem
    rcases List.mem_append.1 hmem with h4 | h4
    · rcases List.mem_append.1 h4 with h5 | h5
      · revert h5; decide
      · exact absurd rfl (isAlnum_ne_nl (hx _ h5))
    · revert h4; decide
  unfold parse_edited_content
  rw [splitNl_no_nl hnl, List.foldl_cons, List.foldl_nil]
  have hcongr : parseLineStep sup origs ⟨[], [], 0⟩ (S "[ID:" ++ x ++ S "]") =
      parseLineStep sup origs ⟨[], [], 0⟩ (S "[ID:" ++ x ++ S "] " ++ ([] : CStr)) := by
    apply parseLineStep_congr
    rcases x with _ | ⟨c, t⟩
    · exact absurd rfl hne
    · rw [pyStrip_tag_line (by rfl), if_pos rfl]
      have hshape : S "[ID:" ++ (c :: t) ++ S "]" =
          '[' :: (('I' :: 'D' :: ':' :: (c :: t)) ++ [']']) := by simp [S]
      rw [hshape, pyStrip_cons_of_last (by decide) (by decide) rfl]
      simp [S]
  rw [hcongr, parseLineStep_tag_line hne hx (by rfl)]
  simp only [if_neg (by decide : ¬(([] : CStr) = S "(empty)")), List.not_mem_nil, hlook]
  rw [if_neg not_false]
  have hguard : ¬(List.isPrefixOf (S "[ID:") ([] : CStr) = true ∧ ([] : CStr).length < 15) := by
    intro h
    exact absurd h.1 (by decide)
  rw [if_neg hguard]
  by_cases hzero : node.text = []
  · rw [if_pos hzero.symm, if_pos hzero]
  · rw [if_neg (fun h => hzero h.symm), if_neg hzero]
    rfl

/-- Witness for C4 (amended): `[ID:a1]` against original text `"Hello"`
emits the clearing update. -/
theorem C4_unchanged_line_amended_witness :
    (S "a1" ≠ ([] : CStr)) ∧ (∀ c ∈ S "a1", isAlnum c = true) ∧
    lookupLast (S "a1") [⟨.str (S "a1"), S "Hello"⟩] = some ⟨.str (S "a1"), S "Hello"⟩ ∧
    parse_edited_content supC (S "[ID:" ++ S "a1" ++ S "]") [⟨.str (S "a1"), S "Hello"⟩] =
      [⟨none, [], S "a1"⟩] := by
  refine ⟨by decide, by decide, rfl, ?_⟩
  rw [@C4_unchanged_line_amended supC [⟨.str (S "a1"), S "Hello"⟩] (S "a1")
    ⟨.str (S "a1"), S "Hello"⟩ (by decide) (by decide) rfl]
  rfl

/-! ## Claim C6: deletion lines are dropped -/

theorem searchIdTag_nil : searchIdTag [] = none := rfl

theorem searchIdTag_cons_eq_none {c : Char} {cs : CStr}
    (h1 : matchIdAt (c :: cs) = none) (h2 : searchIdTag cs = none) :
    searchIdTag (c :: cs) = none := by
  rw [searchIdTag, h1, h2]

/-- No id tag matches anywhere in `[DELETE:<id>]` for an alphanumeric id:
the only `[` is at the start and is followed by `D`, not `ID`. -/
theorem searchIdTag_delete_line {idc : CStr} (hx : ∀ c ∈ idc, isAlnum c = true) :
    searchIdTag (S "[DELETE:" ++ idc ++ S "]") = none := by
  have htail : searchIdTag (idc ++ S "]") = none := by
    have hbase : searchIdTag (S "]") = none := rfl
    have := searchIdTag_alnum_append (r := S "]") hx
    rw [this, hbase]
    rfl
  have hshape : S "[DELETE:" ++ idc ++ S "]" =
      '[' :: ('D' :: 'E' :: 'L' :: 'E' :: 'T' :: 'E' :: ':' :: (idc ++ S "]")) := by simp [S]
  rw [hshape]
  refine searchIdTag_cons_eq_none (matchIdAt_lbrack_ne_I (by decide)) ?_
  refine searchIdTag_cons_eq_none (matchIdAt_cons_ne_lbrack (by decide)) ?_
  refine searchIdTag_cons_eq_none (matchIdAt_cons_ne_lbrack (by decide)) ?_
  refine searchIdTag_cons_eq_none (matchIdAt_cons_ne_lbrack (by decide)) ?_
  refine searchIdTag_cons_eq_none (matchIdAt_cons_ne_lbrack (by decide)) ?_
  refine searchIdTag_cons_eq_none (matchIdAt_cons_ne_lbrack (by decide)) ?_
  refine searchIdTag_cons_eq_none (matchIdAt_cons_ne_lbrack (by decide)) ?_
  refine searchIdTag_cons_eq_none (matchIdAt_cons_ne_lbrack (by decide)) ?_
  exact htail

/-- One reconciler iteration on a `[DELETE:<id>]` line leaves the state
untouched: the line is not `[NEW]`-prefixed and the id regex finds no
match, so the non-new branch skips it. -/
theorem parseLineStep_delete_line {sup : Nat → CStr} {origs : List FlatNode}
    {st : ParseState} {idc : CStr} (hx : ∀ c ∈ idc, isAlnum c = true) :
    parseLineStep sup origs st (S "[DELETE:" ++ idc ++ S "]") = st := by
  have hstrip : pyStrip (S "[DELETE:" ++ idc ++ S "]") = S "[DELETE:" ++ idc ++ S "]" := by
    have hshape : S "[DELETE:" ++ idc ++ S "]" =
        '[' :: (('D' :: 'E' :: 'L' :: 'E' :: 'T' :: 'E' :: ':' :: idc) ++ [']']) := by simp [S]
    rw [hshape, pyStrip_cons_of_last (by decide) (by decide) rfl]
  have hempty : (S "[DELETE:" ++ idc ++ S "]").isEmpty = false := by simp [S]
  have hnew : List.isPrefixOf (S "[NEW]") (S "[DELETE:" ++ idc ++ S "]") = false := by
    show List.isPrefixOf ('[' :: 'N' :: 'E' :: 'W' :: ']' :: [])
      ('[' :: 'D' :: 'E' :: 'L' :: 'E' :: 'T' :: 'E' :: ':' :: (idc ++ S "]")) = false
    simp [List.isPrefixOf]
  have hcore : lineCore (S "[DELETE:" ++ idc ++ S "]") = S "[DELETE:" ++ idc ++ S "]" := by
    rw [lineCore, if_neg (by rw [hnew]; exact Bool.false_ne_true)]
  simp only [parseLineStep, hstrip, hempty, hnew, hcore, searchIdTag_delete_line hx,
    Bool.false_eq_true, if_false]

/-- Claim C6: deletion lines are dropped.  A line of the form
`[DELETE:<id>]` (nonempty alphanumeric id, hence no embedded `[ID:...]`
tag and no `[NEW]` prefix) contributes no `PathUpdate`: inserting it
anywhere between the lines of an edited text leaves the reconciler's
output unchanged. -/
theorem C6_delete_lines_dropped (sup : Nat → CStr) (origs : List FlatNode)
    (pre post : List CStr) (idc : CStr)
    (hx : ∀ c ∈ idc, isAlnum c = true)
    (hlines : ∀ l ∈ pre ++ post, '\n' ∉ l) :
    parse_edited_content sup
        (joinNl (pre ++ (S "[DELETE:" ++ idc ++ S "]") :: post)) origs =
      parse_edited_content sup (joinNl (pre ++ post)) origs := by
  have hdel : '\n' ∉ S "[DELETE:" ++ idc ++ S "]" := by
    intro hmem
    rcases List.mem_append.1 hmem with h4 | h4
    · rcases List.mem_append.1 h4 with h5 | h5
      · revert h5; decide
      · exact absurd rfl (isAlnum_ne_nl (hx _ h5))
    · revert h4; decide
  unfold parse_edited_content
  rw [splitNl_joinNl (by simp) (by
    intro l hl
    rcases List.mem_append.1 hl with h4 | h4
    · exact hlines l (List.mem_append.2 (Or.inl h4))
    · rcases List.mem_cons.1 h4 with rfl | h5
      · exact hdel
      · exact hlines l (List.mem_append.2 (Or.inr h5)))]
  rcases hpp : pre ++ post with _ | ⟨l0, ls0⟩
  · rcases List.append_eq_nil.1 hpp with ⟨rfl, rfl⟩
    show (parseLineStep sup origs ⟨[], [], 0⟩ (S "[DELETE:" ++ idc ++ S "]")).updates =
      (List.foldl (parseLineStep sup origs) ⟨[], [], 0⟩ (splitNl (joinNl []))).updates
    rw [parseLineStep_delete_line hx]
    rfl
  · rw [← hpp, splitNl_joinNl (by rw [hpp]; simp) hlines]
    rw [List.foldl_append, List.foldl_append, List.foldl_cons,
      parseLineStep_delete_line hx]

/-- Witness for C6 at a concrete reconciliation. -/
theorem C6_delete_lines_dropped_witness :
    (∀ c ∈ S "ab12", isAlnum c = true) ∧
    parse_edited_content supC
        (joinNl [S "[ID:a1] X", S "[DELETE:" ++ S "ab12" ++ S "]", S "[ID:b2] World"])
        [⟨.str (S "a1"), S "Hello"⟩, ⟨.str (S "b2"), S "World"⟩] =
      parse_edited_content supC (joinNl [S "[ID:a1] X", S "[ID:b2] World"])
        [⟨.str (S "a1"), S "Hello"⟩, ⟨.str (S "b2"), S "World"⟩] := by
  refine ⟨by decide, ?_⟩
  exact C6_delete_lines_dropped supC _ [S "[ID:a1] X"] [S "[ID:b2] World"] (S "ab12")
    (by decide) (by decide)

/-! ## Claim C8: empty marker round trip -/

/-- Claim C8: the claim states that rendering a FlatNode with id `c3` and
text `""` produces the line `[ID:c3] (empty)`.  Counterexample:
`dump_flattened_nodes` emits the text verbatim after a single space, so
the rendered line is `[ID:c3] ` (with trailing space), not
`[ID:c3] (empty)` — the `(empty)` placeholder appears only in the prompt
contract for the model's own output. -/
theorem C8_empty_marker_counterexample :
    dump_flattened_nodes [⟨.str (S "c3"), []⟩] = S "[ID:c3] " ∧
    dump_flattened_nodes [⟨.str (S "c3"), []⟩] ≠ S "[ID:c3] (empty)" := by
  refine ⟨rfl, ?_⟩
  intro h
  have h2 : (S "[ID:c3] " : CStr) = S "[ID:c3] (empty)" := by
    rw [← h]
    rfl
  revert h2
  decide

/-- Claim C8 (amended): rendering `{id: "c3", text: ""}` yields the line
`[ID:c3] ` (id tag, one space, the empty text verbatim); the `(empty)`
placeholder is only what the prompt contract asks the model to produce.
If the model echoes `[ID:c3] (empty)` back, the reconciler normalizes
`(empty)` to the empty string, which equals the original text, and emits
no update for `c3`. -/
theorem C8_empty_marker_amended (sup : Nat → CStr) :
    dump_flattened_nodes [⟨.str (S "c3"), []⟩] = S "[ID:c3] " ∧
    parse_edited_content sup (S "[ID:c3] (empty)") [⟨.str (S "c3"), []⟩] = [] :=
  ⟨rfl, rfl⟩

/-! ## Claim C7: empty-generation failure -/

/-- Claim C7: when the generation service returns the empty string, the
orchestrator's result carries an `error` key, no `path_updates` key and
does not raise — but the code contradicts its own dedicated
empty-output branch (source lines 599-605): evaluating
`logging.error(...)` at source line 600 raises `UnboundLocalError`
(`logging` is a function-local name, bound only by the `import logging`
inside the except handler), so the handler's result — which also carries
`original` and a different `error` message — is returned instead of the
dedicated `{"error": "LLM返回了空内容，无法进行解析", "message": ...}`
object. -/
theorem C7_empty_generation_result (sup : Nat → CStr) (tree : Json)
    (message : CStr) (sel : List CStr) :
    (process_jsonnode (.ok []) sup tree message sel).error = some unboundLocalLoggingMsg ∧
    (process_jsonnode (.ok []) sup tree message sel).error ≠ some emptyContentMsg ∧
    (process_jsonnode (.ok []) sup tree message sel).path_updates = none ∧
    (process_jsonnode (.ok []) sup tree message sel).original =
      some (dump_flattened_nodes (flatten_nodes_to_list tree)) := by
  refine ⟨rfl, ?_, rfl, rfl⟩
  intro h
  have h2 : unboundLocalLoggingMsg = emptyContentMsg := Option.some.inj (by rw [← h]; rfl)
  revert h2
  decide

/-! ## Claim C2: the orchestrator does not run the node identifier -/

/-- Follows the spec's words (§4.5, steps 1-3): "1. Run Node Identifier
over `document_tree` (mutating a working copy).  2. Run Tree Flattener →
`flat_list`.  3. Run Dump/Render → `full_dump`." — the claimed
orchestrator, which assigns ids before flattening; the remaining steps
mirror `process_jsonnode`. -/
def process_spec_identify_first (genOut : Except CStr CStr) (sup : Nat → CStr)
    (g : List CStr → CStr) (jsonnode : Json) (message : CStr)
    (_selected_nodes_ids : List CStr) : ProcResult :=
  let tree2 := (add_ids_to_nodes g jsonnode []).1
  let flattened := flatten_nodes_to_list tree2
  let dumpstr := dump_flattened_nodes flattened
  match genOut with
  | .error e => ⟨some dumpstr, none, message, none, some e⟩
  | .ok edited_content =>
      if edited_content.length = 0 then
        ⟨some dumpstr, none, message, none, some unboundLocalLoggingMsg⟩
      else
        ⟨some dumpstr, some edited_content, message,
          some (parse_edited_content sup edited_content flattened), none⟩

/-- The spec's end-to-end example tree (two paragraphs `A` and `B`),
without ids. -/
def c2tree : Json :=
  .obj [(S "type", .str (S "doc")), (S "content", .arr
    [.obj [(S "type", .str (S "paragraph")),
       (S "content", .arr [.obj [(S "type", .str (S "text")), (S "text", .str (S "A"))]])],
     .obj [(S "type", .str (S "paragraph")),
       (S "content", .arr [.obj [(S "type", .str (S "text")), (S "text", .str (S "B"))]])]])]

/-- A generator that numbers the ids it hands out (1 + the size of the
existing set, in hex-free decimal followed by `x`). -/
def gSeq : List CStr → CStr := fun ex => S (toString ex.length) ++ S "x"

/-- Claim C2: the claim states that `process` first runs the Node
Identifier over the input tree, so that every type-bearing node has an
id before the Tree Flattener runs.  Counterexample: on the id-less tree
`c2tree` the source orchestrator returns `original = ""` (the raw tree
is flattened as-is and no node has an id, so the flat list is empty),
while the spec's identify-first orchestrator returns the two rendered
paragraphs; the orchestrator never calls `add_ids_to_nodes` (the source
comments "we add id of node in frontend"). -/
theorem C2_identify_first_counterexample :
    (process_jsonnode (.ok (S "x")) supC c2tree (S "m") []).original = some [] ∧
    (process_spec_identify_first (.ok (S "x")) supC gSeq c2tree (S "m") []).original =
      some (S "[ID:1x] A" ++ '\n' :: S "[ID:3x] B") ∧
    (process_jsonnode (.ok (S "x")) supC c2tree (S "m") []).original ≠
      (process_spec_identify_first (.ok (S "x")) supC gSeq c2tree (S "m") []).original := by
  have e1 : (process_jsonnode (.ok (S "x")) supC c2tree (S "m") []).original = some [] := rfl
  have e2 : (process_spec_identify_first (.ok (S "x")) supC gSeq c2tree (S "m") []).original =
      some (S "[ID:1x] A" ++ '\n' :: S "[ID:3x] B") := rfl
  refine ⟨e1, e2, ?_⟩
  rw [e1, e2]
  intro h
  have h2 := Option.some.inj h
  revert h2
  decide

/-- Claim C2 (amended): `process_jsonnode` runs the Tree Flattener
directly on the input tree — ids are expected to have been assigned by
the frontend, the Node Identifier is never invoked, and in every call
(success, empty output, or raised generation error) the `original` field
is the render of the flat list of the raw input tree. -/
theorem C2_orchestrator_amended (genOut : Except CStr CStr) (sup : Nat → CStr)
    (tree : Json) (message : CStr) (sel : List CStr) :
    (process_jsonnode genOut sup tree message sel).original =
      some (dump_flattened_nodes (flatten_nodes_to_list tree)) := by
  rcases genOut with e | edited
  · rfl
  · by_cases h : edited.length = 0
    · simp [process_jsonnode, h]
    · simp [process_jsonnode, h]

/-! ## Claim C5: duplicate-free output -/

/-- The id-tag (stripped regex group) that `_parse_edited_content`
extracts from one response line. -/
def tagOfLine (line : CStr) : Option CStr :=
  match searchIdTag (lineCore (pyStrip line)) with
  | some (_, grp, _) => some (pyStrip grp)
  | none => none

/-- The reconciler loop invariant behind the duplicate-free claim:
emitted ids are pairwise distinct, every emitted id is either a
processed tag or a consumed supply value, and every processed id
satisfies the tag predicate `T`. -/
def DupInv (sup : Nat → CStr) (T : CStr → Prop) (st : ParseState) : Prop :=
  (st.updates.map PathUpdate.id).Nodup ∧
  (∀ u ∈ st.updates, u.id ∈ st.processed ∨ ∃ i < st.ctr, u.id = sup i) ∧
  (∀ p ∈ st.processed, T p)

theorem DupInv_addProcessed {sup : Nat → CStr} {T : CStr → Prop} {st : ParseState}
    {t : CStr} (hInv : DupInv sup T st) (hT : T t) :
    DupInv sup T ⟨st.updates, t :: st.processed, st.ctr⟩ := by
  obtain ⟨h1, h2, h3⟩ := hInv
  refine ⟨h1, ?_, ?_⟩
  · intro u hu
    rcases h2 u hu with hp | hi
    · exact Or.inl (List.mem_cons_of_mem _ hp)
    · exact Or.inr hi
  · intro p hp
    rcases List.mem_cons.1 hp with rfl | hp2
    · exact hT
    · exact h3 p hp2

theorem DupInv_appendUpdate {sup : Nat → CStr} {T : CStr → Prop} {st : ParseState}
    {u : PathUpdate} (hInv : DupInv sup T st)
    (hTfresh : ∀ i, ∀ t, T t → sup i ≠ t)
    (hnotproc : u.id ∉ st.processed) (hT : T u.id) :
    DupInv sup T ⟨st.updates ++ [u], u.id :: st.processed, st.ctr⟩ := by
  obtain ⟨h1, h2, h3⟩ := hInv
  refine ⟨?_, ?_, ?_⟩
  · rw [List.map_append, List.nodup_append]
    refine ⟨h1, by simp, ?_⟩
    intro a ha hb
    have hbid : a = u.id := by
      rcases List.mem_map.1 hb with ⟨w, hw, hwi⟩
      rcases List.mem_singleton.1 hw with rfl
      exact hwi.symm
    subst hbid
    rcases List.mem_map.1 ha with ⟨v2, hv2, hvi⟩
    rcases h2 v2 hv2 with hp | ⟨i, _, hi⟩
    · rw [hvi] at hp
      exact hnotproc hp
    · rw [hvi] at hi
      exact hTfresh i u.id hT hi.symm
  · intro v hv
    rcases List.mem_append.1 hv with hv1 | hv1
    · rcases h2 v hv1 with hp | hi
      · exact Or.inl (List.mem_cons_of_mem _ hp)
      · exact Or.inr hi
    · rcases List.mem_singleton.1 hv1 with rfl
      exact Or.inl (List.mem_cons_self _ _)
  · intro p hp
    rcases List.mem_cons.1 hp with rfl | hp2
    · exact hT
    · exact h3 p hp2

theorem DupInv_appendSupply {sup : Nat → CStr} {T : CStr → Prop} {st : ParseState}
    {content : CStr} {path : Option CStr} (hInv : DupInv sup T st)
    (hTfresh : ∀ i, ∀ t, T t → sup i ≠ t)
    (hinj : ∀ i j, sup i = sup j → i = j) :
    DupInv sup T ⟨st.updates ++ [⟨path, content, sup st.ctr⟩], st.processed, st.ctr + 1⟩ := by
  obtain ⟨h1, h2, h3⟩ := hInv
  refine ⟨?_, ?_, ?_⟩
  · rw [List.map_append, List.nodup_append]
    refine ⟨h1, by simp, ?_⟩
    intro a ha hb
    have hbid : a = sup st.ctr := by
      rcases List.mem_map.1 hb with ⟨w, hw, hwi⟩
      rcases List.mem_singleton.1 hw with rfl
      exact hwi.symm
    subst hbid
    rcases List.mem_map.1 ha with ⟨v2, hv2, hvi⟩
    rcases h2 v2 hv2 with hp | ⟨i, hilt, hi⟩
    · rw [hvi] at hp
      exact hTfresh st.ctr _ (h3 _ hp) rfl
    · rw [hvi] at hi
      have := hinj i st.ctr hi.symm
      omega
  · intro v hv
    rcases List.mem_append.1 hv with hv1 | hv1
    · rcases h2 v hv1 with hp | ⟨i, hilt, hi⟩
      · exact Or.inl hp
      · exact Or.inr ⟨i, Nat.lt_succ_of_lt hilt, hi⟩
    · rcases List.mem_singleton.1 hv1 with rfl
      exact Or.inr ⟨st.ctr, Nat.lt_succ_self _, rfl⟩
  · exact h3

theorem DupInv_step {sup : Nat → CStr} {origs : List FlatNode} {T : CStr → Prop}
    {st : ParseState} {line : CStr}
    (hTfresh : ∀ i, ∀ t, T t → sup i ≠ t)
    (hinj : ∀ i j, sup i = sup j → i = j)
    (htag : ∀ t, tagOfLine line = some t → T t)
    (hInv : DupInv sup T st) :
    DupInv sup T (parseLineStep sup origs st line) := by
  unfold parseLineStep
  by_cases hblank : (pyStrip line).isEmpty = true
  · rw [if_pos hblank]
    exact hInv
  · rw [if_neg hblank]
    rcases hsearch : searchIdTag (lineCore (pyStrip line)) with _ | ⟨pre, grp, after⟩
    · simp only [hsearch]
      by_cases hnew : List.isPrefixOf (S "[NEW]") (pyStrip line) = true
      · rw [if_pos hnew]
        exact DupInv_appendSupply hInv hTfresh hinj
      · rw [if_neg hnew]
        exact hInv
    · have hT : T (pyStrip grp) := htag _ (by rw [tagOfLine, hsearch])
      simp only [hsearch]
      by_cases hnew : List.isPrefixOf (S "[NEW]") (pyStrip line) = true
      · rw [if_pos hnew]
        by_cases hproc : pyStrip grp ∈ st.processed
        · rw [if_pos hproc]
          exact hInv
        · rw [if_neg hproc]
          exact DupInv_appendUpdate hInv hTfresh hproc hT
      · rw [if_neg hnew]
        by_cases hproc : pyStrip grp ∈ st.processed
        · rw [if_pos hproc]
          exact hInv
        · rw [if_neg hproc]
          by_cases hguard : List.isPrefixOf (S "[ID:")
              (if pyStrip (pre ++ after) = S "(empty)" then [] else pyStrip (pre ++ after)) = true ∧
              (if pyStrip (pre ++ after) = S "(empty)" then ([] : CStr)
                else pyStrip (pre ++ after)).length < 15
          · rw [if_pos hguard]
            exact hInv
          · rw [if_neg hguard]
            rcases hlook : lookupLast (pyStrip grp) origs with _ | node
            · exact DupInv_addProcessed hInv hT
            · dsimp only
              by_cases heq : (if pyStrip (pre ++ after) = S "(empty)" then ([] : CStr)
                  else pyStrip (pre ++ after)) = node.text
              · rw [if_pos heq]
                exact DupInv_addProcessed hInv hT
              · rw [if_neg heq]
                exact DupInv_appendUpdate hInv hTfresh hproc hT

/-- An edited text whose `[NEW]` line's synthesized id collides with a
tagged id. -/
def c5edited : CStr := S "[ID:a1] X" ++ '\n' :: S "[NEW] Y"

def c5origs : List FlatNode := [⟨.str (S "a1"), S "Hello"⟩]

/-- A uuid-prefix supply that happens to produce `a1`. -/
def supA1 : Nat → CStr := fun _ => S "a1"

/-- Claim C5: duplicate-free output.  The claim promises that no id
appears in more than one emitted update, including ids synthesized for
`[NEW]` lines without a tag.  Counterexample: when the synthesized
uuid prefix happens to be `a1`, the output contains two updates with id
`a1` — the synthesized id is neither checked against nor added to the
"already processed" set. -/
theorem C5_duplicate_free_counterexample :
    parse_edited_content supA1 c5edited c5origs =
      [⟨none, S "X", S "a1"⟩, ⟨some (S "new"), S "Y", S "a1"⟩] ∧
    ¬ ((parse_edited_content supA1 c5edited c5origs).map PathUpdate.id).Nodup := by
  have e : parse_edited_content supA1 c5edited c5origs =
      [⟨none, S "X", S "a1"⟩, ⟨some (S "new"), S "Y", S "a1"⟩] := rfl
  refine ⟨e, ?_⟩
  rw [e]
  decide

/-- Claim C5 (amended): no id appears in more than one emitted update
provided the synthesized ids are pairwise distinct and distinct from
every id tag occurring in the edited text; the "already processed" set
enforces the invariant for tagged ids only, and `[NEW]` lines without a
tag bypass it. -/
theorem C5_duplicate_free_amended (sup : Nat → CStr) (edited : CStr) (origs : List FlatNode)
    (hinj : ∀ i j, sup i = sup j → i = j)
    (hdisj : ∀ i, ∀ l ∈ splitNl edited, ∀ t, tagOfLine l = some t → sup i ≠ t) :
    ((parse_edited_content sup edited origs).map PathUpdate.id).Nodup := by
  have hTfresh : ∀ i, ∀ t, (∃ l ∈ splitNl edited, tagOfLine l = some t) → sup i ≠ t := by
    intro i t ht
    rcases ht with ⟨l, hl, htl⟩
    exact hdisj i l hl t htl
  have hfold : ∀ ls : List CStr, (∀ l ∈ ls, l ∈ splitNl edited) → ∀ st : ParseState,
      DupInv sup (fun t => ∃ l ∈ splitNl edited, tagOfLine l = some t) st →
      DupInv sup (fun t => ∃ l ∈ splitNl edited, tagOfLine l = some t)
        (ls.foldl (parseLineStep sup origs) st) := by
    intro ls
    induction ls with
    | nil => exact fun _ st h => h
    | cons l tl ih =>
        intro hmem st hInv
        rw [List.foldl_cons]
        exact ih (fun x hx => hmem x (List.mem_cons_of_mem l hx)) _
          (DupInv_step hTfresh hinj
            (fun t ht => ⟨l, hmem l (List.mem_cons_self l tl), ht⟩) hInv)
  have hres := hfold (splitNl edited) (fun l hl => hl) ⟨[], [], 0⟩
    ⟨List.nodup_nil, fun u hu => absurd hu (List.not_mem_nil u),
      fun p hp => absurd hp (List.not_mem_nil p)⟩
  exact hres.1

/-- An injective supply disjoint from the tags of `c5edited`. -/
def supR : Nat → CStr := fun n => List.replicate (n + 1) 'u'

/-- Witness for C5 (amended) on the same edited text with a
well-behaved supply. -/
theorem C5_duplicate_free_amended_witness :
    (∀ i j, supR i = supR j → i = j) ∧
    (∀ i, ∀ l ∈ splitNl c5edited, ∀ t, tagOfLine l = some t → supR i ≠ t) ∧
    ((parse_edited_content supR c5edited c5origs).map PathUpdate.id).Nodup := by
  have hinj : ∀ i j, supR i = supR j → i = j := by
    intro i j h
    have h2 := congrArg List.length h
    simpa [supR] using h2
  have hdisj : ∀ i, ∀ l ∈ splitNl c5edited, ∀ t, tagOfLine l = some t → supR i ≠ t := by
    intro i l hl t ht
    have hsplit : splitNl c5edited = [S "[ID:a1] X", S "[NEW] Y"] := rfl
    rw [hsplit] at hl
    rcases List.mem_cons.1 hl with rfl | hl2
    · have htag : tagOfLine (S "[ID:a1] X") = some (S "a1") := rfl
      rw [htag] at ht
      rcases Option.some.inj ht with rfl
      intro h
      rw [supR, List.replicate_succ] at h
      have hshape : S "a1" = 'a' :: '1' :: [] := rfl
      rw [hshape] at h
      injection h with h1 h2
      revert h1
      decide
    rcases List.mem_cons.1 hl2 with rfl | hl3
    · have htag : tagOfLine (S "[NEW] Y") = none := rfl
      rw [htag] at ht
      cases ht
    cases hl3
  exact ⟨hinj, hdisj, C5_duplicate_free_amended supR c5edited c5origs hinj hdisj⟩

/-! ## Claim C9: flatten and blank text -/

/-- The local condition under which the flattener cannot emit blank
text from a node: the node must not carry both a string `text` value
that is empty after strip and a list `content` value (such a node can
qualify as a leaf through the content test while the emission branch
still prefers the string `text` value verbatim). -/
def safeLocal (es : List (CStr × Json)) : Bool :=
  match getVal es (S "text") with
  | some (.str t) =>
      !((pyStrip t).isEmpty &&
        (match getVal es (S "content") with
         | some (.arr _) => true
         | _ => false))
  | _ => true

/-! The tree-wide closure of `safeLocal`. -/
mutual
def safeTree : Json → Bool
  | .obj es => safeLocal es && safeEntries es
  | .arr xs => safeAll xs
  | _ => true
def safeAll : List Json → Bool
  | [] => true
  | x :: xs => safeTree x && safeAll xs
def safeEntries : List (CStr × Json) → Bool
  | [] => true
  | (_, v) :: es => safeTree v && safeEntries es
end

theorem mem_extractParts {items : List Json} {item : Json} (hmem : item ∈ items)
    {part : CStr} (hp : part ∈ itemParts item) : part ∈ extractParts items := by
  induction items with
  | nil => cases hmem
  | cons i rest ih =>
      rw [extractParts]
      rcases List.mem_cons.1 hmem with rfl | h2
      · exact List.mem_append.2 (Or.inl hp)
      · exact List.mem_append.2 (Or.inr (ih h2))

/-- If some content item passes the text-item test, the extracted
joined text contains a non-whitespace character and so is nonblank. -/
theorem tc_nonblank {items : List Json} (h : 0 < (items.filter isTextItem).length) :
    (pyStrip (extract_text_from_content items)).isEmpty = false := by
  have hne : items.filter isTextItem ≠ [] := by
    intro hnil
    rw [hnil] at h
    exact absurd h (by decide)
  obtain ⟨item, hitem⟩ := List.exists_mem_of_ne_nil _ hne
  have hmem : item ∈ items := (List.mem_filter.1 hitem).1
  have hti : isTextItem item = true := (List.mem_filter.1 hitem).2
  rcases item with s | n2 | b | _ | xs | es
  case str => simp [isTextItem] at hti
  case num => simp [isTextItem] at hti
  case bool => simp [isTextItem] at hti
  case null => simp [isTextItem] at hti
  case arr => simp [isTextItem] at hti
  case obj =>
    simp only [isTextItem] at hti
    rcases htext : getVal es (S "text") with _ | v
    · rw [htext] at hti; simp at hti
    rcases v with t | n2 | b | _ | xs | es2
    case str =>
      rw [htext] at hti
      have hblank : (pyStrip t).isEmpty = false := by simpa using hti
      have hpart : t ∈ itemParts (Json.obj es) := by
        rw [itemParts, htext]
        exact List.mem_singleton.2 rfl
      have hchar : ∃ c ∈ t, c.isWhitespace = false := by
        by_contra hall
        push_neg at hall
        have : pyStrip t = [] := pyStrip_eq_nil_iff.2 fun c hc => by
          have := hall c hc
          revert this
          cases c.isWhitespace <;> simp
        rw [this] at hblank
        cases hblank
      obtain ⟨c, hc, hw⟩ := hchar
      have hcj : c ∈ joinSpace (extractParts items) :=
        mem_joinSpace_of_mem (mem_extractParts hmem hpart) hc
      have : pyStrip (extract_text_from_content items) ≠ [] :=
        pyStrip_ne_nil ⟨c, hcj, hw⟩
      rcases hres : pyStrip (extract_text_from_content items) with _ | ⟨a, b2⟩
      · exact absurd hres this
      · rfl
    all_goals (rw [htext] at hti; simp at hti)

/-- The emission branch for a leaf with string `text` and the
`safeLocal` guard produce nonblank text. -/
theorem emitLeaf_nonblank {i : Json} {es : List (CStr × Json)}
    (hleaf : (directTextLeaf es || contentLeaf es) = true)
    (hsafe : safeLocal es = true) :
    ∀ n ∈ emitLeaf i es, (pyStrip n.text).isEmpty = false := by
  have hcontentCase : ∀ (hdt : directTextLeaf es = false),
      ∀ n ∈ (match getVal es (S "content") with
        | some (.arr items) =>
            if (extract_text_from_content items).isEmpty then []
            else [(⟨i, extract_text_from_content items⟩ : FlatNode)]
        | _ => ([] : List FlatNode)), (pyStrip n.text).isEmpty = false := by
    intro hdt n hn
    have hc : contentLeaf es = true := by
      rcases Bool.or_eq_true_iff.1 hleaf with h | h
      · rw [hdt] at h; cases h
      · exact h
    unfold contentLeaf at hc
    rcases hcont : getVal es (S "content") with _ | w
    · rw [hcont] at hc; cases hc
    rcases w with s | n2 | b | _ | items | es2
    case str => rw [hcont] at hc; cases hc
    case num => rw [hcont] at hc; cases hc
    case bool => rw [hcont] at hc; cases hc
    case null => rw [hcont] at hc; cases hc
    case obj => rw [hcont] at hc; cases hc
    case arr =>
      rw [hcont] at hc hn
      dsimp only at hc hn
      have hcount : 0 < (items.filter isTextItem).length := by
        have := (Bool.and_eq_true_iff.1 hc).1
        exact of_decide_eq_true this
      by_cases hemp : (extract_text_from_content items).isEmpty = true
      · rw [if_pos hemp] at hn
        cases hn
      · rw [if_neg hemp] at hn
        rcases List.mem_singleton.1 hn with rfl
        exact tc_nonblank hcount
  rcases htext : getVal es (S "text") with _ | v
  · have hdt : directTextLeaf es = false := by unfold directTextLeaf; rw [htext]
    intro n hn
    refine hcontentCase hdt n ?_
    unfold emitLeaf at hn
    rw [htext] at hn
    exact hn
  rcases v with t | n2 | b | _ | xs | es2
  case str =>
    intro n hn
    unfold emitLeaf at hn
    rw [htext] at hn
    rcases List.mem_singleton.1 hn with rfl
    show (pyStrip t).isEmpty = false
    by_cases hd : directTextLeaf es = true
    · unfold directTextLeaf at hd
      rw [htext] at hd
      simpa using hd
    · have hc : contentLeaf es = true := by
        rcases Bool.or_eq_true_iff.1 hleaf with h | h
        · exact absurd h hd
        · exact h
      unfold contentLeaf at hc
      rcases hcont : getVal es (S "content") with _ | w
      · rw [hcont] at hc; cases hc
      rcases w with s2 | n3 | b2 | _ | items | es3
      · rw [hcont] at hc; cases hc
      · rw [hcont] at hc; cases hc
      · rw [hcont] at hc; cases hc
      · rw [hcont] at hc; cases hc
      · unfold safeLocal at hsafe
        rw [htext, hcont] at hsafe
        simpa using hsafe
      · rw [hcont] at hc; cases hc
  all_goals (
    intro n hn
    have hdt : directTextLeaf es = false := by unfold directTextLeaf; rw [htext]
    refine hcontentCase hdt n ?_
    unfold emitLeaf at hn
    rw [htext] at hn
    exact hn)

/-- A node carrying both an empty string `text` and a qualifying
`content` array: the flattener emits the empty text verbatim. -/
def c9tree : Json :=
  .obj [(S "type", .str (S "p")), (S "id", .str (S "a1")), (S "text", .str []),
    (S "content", .arr [.obj [(S "type", .str (S "text")), (S "text", .str (S "hello"))]])]

/-- Claim C9: flatten never emits a blank FlatNode.  Counterexample:
`c9tree` has an empty string `text` (so the direct-text leaf test
fails) together with a content array holding a text item (so the
content leaf test succeeds); the emission branch then prefers the
string `text` value and emits a FlatNode with empty text. -/
theorem C9_flatten_nonblank_counterexample :
    flatten_nodes_to_list c9tree = [⟨.str (S "a1"), []⟩] ∧
    ¬ (∀ n ∈ flatten_nodes_to_list c9tree, (pyStrip n.text).isEmpty = false) := by
  refine ⟨rfl, ?_⟩
  intro h
  have h2 := h ⟨.str (S "a1"), []⟩ (by rw [(rfl :
    flatten_nodes_to_list c9tree = [⟨.str (S "a1"), []⟩])]; exact List.mem_singleton.2 rfl)
  revert h2
  decide

theorem flattenOthers_cons (k : CStr) (v : Json) (es : List (CStr × Json)) :
    flattenOthers ((k, v) :: es) =
      (if k = S "id" ∨ k = S "text" ∨ k = S "children" ∨ k = S "content" ∨ k = S "attrs" then
        []
      else
        match v with
        | .obj _ => flatten_nodes_to_list v
        | .arr _ => flatten_nodes_to_list v
        | _ => []) ++ flattenOthers es := by
  cases v <;> rfl

theorem flattenContent_cons (k : CStr) (v : Json) (es : List (CStr × Json)) :
    flattenContent ((k, v) :: es) =
      if k = S "content" then
        (match v with
        | .arr xs => flattenList xs
        | _ => [])
      else flattenContent es := by
  cases v <;> rfl

theorem flattenChildren_cons (k : CStr) (v : Json) (es : List (CStr × Json)) :
    flattenChildren ((k, v) :: es) =
      if k = S "children" then
        (match v with
        | .arr xs => flattenList xs
        | _ => [])
      else flattenChildren es := by
  cases v <;> rfl

/-- Claim C9 (amended): for every tree in which no dict node carries
both a blank (empty-after-strip) string `text` value and a list
`content` value, every FlatNode emitted by the flattener has text that
is nonempty after strip. -/
theorem C9_flatten_nonblank_amended (t : Json) (hsafe : safeTree t = true) :
    ∀ n ∈ flatten_nodes_to_list t, (pyStrip n.text).isEmpty = false := by
  have main := flatten_nodes_to_list.mutual_induct
    (fun t => safeTree t = true →
      ∀ n ∈ flatten_nodes_to_list t, (pyStrip n.text).isEmpty = false)
    (fun xs => safeAll xs = true →
      ∀ n ∈ flattenList xs, (pyStrip n.text).isEmpty = false)
    (fun es => safeEntries es = true →
      ∀ n ∈ flattenOthers es, (pyStrip n.text).isEmpty = false)
    (fun es => safeEntries es = true →
      ∀ n ∈ flattenContent es, (pyStrip n.text).isEmpty = false)
    (fun es => safeEntries es = true →
      ∀ n ∈ flattenChildren es, (pyStrip n.text).isEmpty = false)
  refine (main ?_ ?_ ?_ ?_ ?_ ?_ ?_ ?_ ?_ ?_ ?_ ?_ ?_ ?_ ?_ ?_).1 t hsafe
  · -- leaf with id
    intro es i hleaf hid hsafe2 n hn
    have hsl : safeLocal es = true := by
      rw [safeTree] at hsafe2
      exact (Bool.and_eq_true_iff.1 hsafe2).1
    have hred : flatten_nodes_to_list (Json.obj es) = emitLeaf i es := by
      unfold flatten_nodes_to_list
      rw [hid, hleaf]
    rw [hred] at hn
    exact emitLeaf_nonblank hleaf hsl n hn
  · -- container
    intro es hcond ih5 ih4 ih3 hsafe2 n hn
    obtain ⟨hsl, hse⟩ := Bool.and_eq_true_iff.1 (by rw [safeTree] at hsafe2; exact hsafe2)
    have hred : flatten_nodes_to_list (Json.obj es) =
        flattenChildren es ++ flattenContent es ++ flattenOthers es := by
      unfold flatten_nodes_to_list
      rcases hid : nodeIdOf es with _ | i
      · rfl
      · cases hlf : directTextLeaf es || contentLeaf es
        · rfl
        · exact absurd (hcond i hid hlf) not_false
    rw [hred] at hn
    rcases List.mem_append.1 hn with h4 | h4
    · rcases List.mem_append.1 h4 with h5 | h5
      · exact ih5 hse n h5
      · exact ih4 hse n h5
    · exact ih3 hse n h4
  · -- array node
    intro xs ih hsafe2 n hn
    rw [show flatten_nodes_to_list (Json.arr xs) = flattenList xs from rfl] at hn
    rw [safeTree] at hsafe2
    exact ih hsafe2 n hn
  · -- scalar node
    intro t ht1 ht2 _ n hn
    rcases t with s | n2 | b | _ | xs | es
    case obj => exact (ht1 es rfl).elim
    case arr => exact (ht2 xs rfl).elim
    all_goals exact absurd hn (List.not_mem_nil n)
  · intro _ n hn
    exact absurd hn (List.not_mem_nil n)
  · -- list cons
    intro item rest ih1 ih2 hsafe2 n hn
    rw [safeAll] at hsafe2
    obtain ⟨h1, h2⟩ := Bool.and_eq_true_iff.1 hsafe2
    rw [flattenList] at hn
    rcases List.mem_append.1 hn with h4 | h4
    · exact ih1 h1 n h4
    · exact ih2 h2 n h4
  · intro _ n hn
    exact absurd hn (List.not_mem_nil n)
  · -- others cons
    intro k v es ih1 ih3 hsafe2 n hn
    rw [safeEntries] at hsafe2
    obtain ⟨h1, h2⟩ := Bool.and_eq_true_iff.1 hsafe2
    rw [flattenOthers_cons] at hn
    rcases List.mem_append.1 hn with h4 | h4
    · by_cases hexc : k = S "id" ∨ k = S "text" ∨ k = S "children" ∨ k = S "content" ∨
        k = S "attrs"
      · rw [if_pos hexc] at h4
        exact absurd h4 (List.not_mem_nil n)
      · rw [if_neg hexc] at h4
        rcases v with s | n2 | b | _ | xs | es2 <;> exact ih1 h1 n h4
    · exact ih3 h2 n h4
  · intro _ n hn
    exact absurd hn (List.not_mem_nil n)
  · -- content entry with array value
    intro es xs ih2 hsafe2 n hn
    rw [safeEntries] at hsafe2
    obtain ⟨h1, _⟩ := Bool.and_eq_true_iff.1 hsafe2
    rw [safeTree] at h1
    rw [flattenContent_cons, if_pos rfl] at hn
    exact ih2 h1 n hn
  · -- content entry with non-array value
    intro v es hnotarr _ n hn
    rw [flattenContent_cons, if_pos rfl] at hn
    rcases v with s | n2 | b | _ | xs | es2 <;>
      first
        | exact (hnotarr _ rfl).elim
        | exact absurd hn (List.not_mem_nil n)
  · -- non-content entry
    intro k v es hk ih4 hsafe2 n hn
    rw [safeEntries] at hsafe2
    obtain ⟨_, h2⟩ := Bool.and_eq_true_iff.1 hsafe2
    rw [flattenContent_cons, if_neg hk] at hn
    exact ih4 h2 n hn
  · intro _ n hn
    exact absurd hn (List.not_mem_nil n)
  · -- children entry with array value
    intro es xs ih2 hsafe2 n hn
    rw [safeEntries] at hsafe2
    obtain ⟨h1, _⟩ := Bool.and_eq_true_iff.1 hsafe2
    rw [safeTree] at h1
    rw [flattenChildren_cons, if_pos rfl] at hn
    exact ih2 h1 n hn
  · -- children entry with non-array value
    intro v es hnotarr _ n hn
    rw [flattenChildren_cons, if_pos rfl] at hn
    rcases v with s | n2 | b | _ | xs | es2 <;>
      first
        | exact (hnotarr _ rfl).elim
        | exact absurd hn (List.not_mem_nil n)
  · -- non-children entry
    intro k v es hk ih5 hsafe2 n hn
    rw [safeEntries] at hsafe2
    obtain ⟨_, h2⟩ := Bool.and_eq_true_iff.1 hsafe2
    rw [flattenChildren_cons, if_neg hk] at hn
    exact ih5 h2 n hn

/-- Witness for C9 (amended) at the two-paragraph tree. -/
theorem C9_flatten_nonblank_amended_witness :
    safeTree c1good = true ∧
    ∀ n ∈ flatten_nodes_to_list c1good, (pyStrip n.text).isEmpty = false :=
  ⟨rfl, C9_flatten_nonblank_amended c1good rfl⟩

/-! ## Supporting lemmas about the node identifier -/

theorem getVal_cons {a : CStr} {b : Json} {es : List (CStr × Json)} {k : CStr} :
    getVal ((a, b) :: es) k = if a = k then some b else getVal es k := by
  unfold getVal
  rw [List.find?_cons]
  by_cases h : a = k
  · rw [if_pos h]
    simp [h]
  · rw [if_neg h]
    simp [h]

theorem hasKey_iff {es : List (CStr × Json)} {k : CStr} :
    hasKey es k = true ↔ k ∈ es.map Prod.fst := by
  unfold hasKey
  rw [List.any_eq_true]
  constructor
  · rintro ⟨e, he, hdec⟩
    have : e.1 = k := of_decide_eq_true hdec
    rw [← this]
    exact List.mem_map_of_mem _ he
  · intro h
    rcases List.mem_map.1 h with ⟨e, he, hk⟩
    exact ⟨e, he, decide_eq_true hk⟩

theorem addIdsEntries_keys (g : List CStr → CStr) (es : List (CStr × Json)) :
    ∀ ex, ((addIdsEntries g es ex).1).map Prod.fst = es.map Prod.fst := by
  induction es with
  | nil => intro ex; rfl
  | cons e es ih =>
      intro ex
      rcases e with ⟨k, v⟩
      rw [addIdsEntries]
      simp only [List.map_cons]
      rw [ih]

theorem hasKey_addIdsEntries {g : List CStr → CStr} {es : List (CStr × Json)}
    {ex : List CStr} {k : CStr} :
    hasKey (addIdsEntries g es ex).1 k = hasKey es k := by
  by_cases h : hasKey es k = true
  · rw [h]
    rw [hasKey_iff, addIdsEntries_keys]
    exact hasKey_iff.1 h
  · rw [Bool.not_eq_true] at h
    rw [h]
    rw [← Bool.not_eq_true, hasKey_iff, addIdsEntries_keys, ← hasKey_iff]
    rw [h]
    exact Bool.false_ne_true

theorem getVal_addIdsEntries_none {g : List CStr → CStr} {es : List (CStr × Json)}
    {k : CStr} (h : getVal es k = none) :
    ∀ ex, getVal (addIdsEntries g es ex).1 k = none := by
  induction es with
  | nil => intro ex; rfl
  | cons e es ih =>
      intro ex
      rcases e with ⟨k1, v1⟩
      rw [getVal_cons] at h
      by_cases hk : k1 = k
      · rw [if_pos hk] at h
        cases h
      · rw [if_neg hk] at h
        rw [addIdsEntries, getVal_cons, if_neg hk]
        exact ih h _

theorem getVal_addIdsEntries_some {g : List CStr → CStr} {es : List (CStr × Json)}
    {k : CStr} {v : Json} (h : getVal es k = some v) :
    ∀ ex, ∃ ex2, getVal (addIdsEntries g es ex).1 k =
      some (add_ids_to_nodes g v ex2).1 := by
  induction es with
  | nil => intro ex; cases h
  | cons e es ih =>
      intro ex
      rcases e with ⟨k1, v1⟩
      rw [getVal_cons] at h
      by_cases hk : k1 = k
      · rw [if_pos hk] at h
        rcases Option.some.inj h with rfl
        refine ⟨ex, ?_⟩
        rw [addIdsEntries, getVal_cons, if_pos hk]
      · rw [if_neg hk] at h
        rw [addIdsEntries, getVal_cons, if_neg hk]
        exact ih h _

theorem addIdsArr_length (g : List CStr → CStr) (xs : List Json) :
    ∀ ex, ((addIdsArr g xs ex).1).length = xs.length := by
  induction xs with
  | nil => intro ex; rfl
  | cons x xs ih =>
      intro ex
      rw [addIdsArr]
      simp only [List.length_cons]
      rw [ih]

theorem addIdsEntries_length (g : List CStr → CStr) (es : List (CStr × Json)) :
    ∀ ex, ((addIdsEntries g es ex).1).length = es.length := by
  induction es with
  | nil => intro ex; rfl
  | cons e es ih =>
      intro ex
      rcases e with ⟨k, v⟩
      rw [addIdsEntries]
      simp only [List.length_cons]
      rw [ih]

theorem setKey_ne_nil {es : List (CStr × Json)} {k : CStr} {v : Json} (h : es ≠ []) :
    setKey es k v ≠ [] := by
  unfold setKey
  by_cases hk : hasKey es k = true
  · rw [if_pos hk]
    simpa using h
  · rw [if_neg hk]
    simp

theorem getVal_setKey_self {es : List (CStr × Json)} {k : CStr} {v : Json} :
    getVal (setKey es k v) k = some v := by
  unfold setKey
  by_cases hk : hasKey es k = true
  · rw [if_pos hk]
    induction es with
    | nil => simp [hasKey] at hk
    | cons e es ih =>
        rcases e with ⟨k1, v1⟩
        by_cases h1 : k1 = k
        · rw [List.map_cons]
          rw [show (if (k1, v1).1 = k then ((k1, v1).1, v) else (k1, v1)) = (k1, v) from by
            rw [if_pos h1]]
          rw [getVal_cons, if_pos h1]
        · rw [List.map_cons]
          rw [show (if (k1, v1).1 = k then ((k1, v1).1, v) else (k1, v1)) = (k1, v1) from by
            rw [if_neg h1]]
          rw [getVal_cons, if_neg h1]
          apply ih
          have := hasKey_iff.1 hk
          rw [List.map_cons] at this
          rcases List.mem_cons.1 this with h2 | h2
          · exact absurd h2.symm h1
          · exact hasKey_iff.2 h2
  · rw [if_neg hk]
    induction es with
    | nil => rw [List.nil_append, getVal_cons, if_pos rfl]
    | cons e es ih =>
        rcases e with ⟨k1, v1⟩
        rw [List.cons_append, getVal_cons]
        have h1 : ¬ k1 = k := by
          intro h2
          apply hk
          rw [hasKey_iff, List.map_cons, h2]
          exact List.mem_cons_self _ _
        rw [if_neg h1]
        apply ih
        intro h2
        apply hk
        rw [hasKey_iff, List.map_cons]
        exact List.mem_cons_of_mem _ (hasKey_iff.1 h2)

/-! ## Claim C10: frame property of the node identifier

The frame relation below states claim C10 over the whole tree: the only
difference between input and output is that each dict with a `type` key
and no truthy `id` receives a string `id` entry (written with dict
assignment: replaced in place if an `id` key was present, else appended
at the end); every other key keeps its position, and every value is
preserved up to the same relation — in particular a node whose truthy
`id` is a string (or any scalar) keeps that exact id, since the relation
on scalars is equality.  (The claim's "every other value is left
unchanged" is read recursively — values are themselves subject only to
these id insertions — since the whole point of the pass is to insert
ids below the root.) -/

mutual
def frameRel (o r : Json) : Prop :=
  match o, r with
  | .obj es, .obj fs =>
      if hasKey es (S "type") && !truthy (getVal es (S "id")) then
        (hasKey es (S "id") = true ∧ frameEntriesNewId es fs) ∨
        (hasKey es (S "id") = false ∧
          ∃ fs2 s2, fs = fs2 ++ [(S "id", Json.str s2)] ∧ frameEntriesSame es fs2)
      else frameEntriesSame es fs
  | .obj _, _ => False
  | .arr xs, .arr ys => frameListRel xs ys
  | .arr _, _ => False
  | .str s, r => r = .str s
  | .num n, r => r = .num n
  | .bool b, r => r = .bool b
  | .null, r => r = .null
termination_by structural o
def frameListRel (os rs : List Json) : Prop :=
  match os, rs with
  | [], [] => True
  | x :: xs, y :: ys => frameRel x y ∧ frameListRel xs ys
  | _, _ => False
termination_by structural os
def frameEntriesSame (es fs : List (CStr × Json)) : Prop :=
  match es, fs with
  | [], [] => True
  | (k, v) :: es, (k2, v2) :: fs => k2 = k ∧ frameRel v v2 ∧ frameEntriesSame es fs
  | _, _ => False
termination_by structural es
def frameEntriesNewId (es fs : List (CStr × Json)) : Prop :=
  match es, fs with
  | [], [] => True
  | (k, v) :: es, (k2, v2) :: fs =>
      k2 = k ∧ (if k = S "id" then ∃ s2, v2 = Json.str s2 else frameRel v v2) ∧
      frameEntriesNewId es fs
  | _, _ => False
termination_by structural es
end

/-- Replacing the `id` values of a same-shape entry list by a string
turns the plain frame relation into the new-id frame relation. -/
theorem frameEntriesNewId_of_setKeyMap {nid : CStr} :
    ∀ es fs : List (CStr × Json), frameEntriesSame es fs →
      frameEntriesNewId es
        (fs.map fun e => if e.1 = S "id" then (e.1, Json.str nid) else e) := by
  intro es
  induction es with
  | nil =>
      intro fs h
      cases fs with
      | nil => exact trivial
      | cons f fs => exact False.elim h
  | cons e es ih =>
      intro fs h
      rcases e with ⟨k, v⟩
      cases fs with
      | nil => exact False.elim h
      | cons f fs =>
          rcases f with ⟨k2, v2⟩
          obtain ⟨hk, hv, hrest⟩ := h
          rw [List.map_cons]
          by_cases hid : k2 = S "id"
          · rw [show (if (k2, v2).1 = S "id" then ((k2, v2).1, Json.str nid) else (k2, v2)) =
              (k2, Json.str nid) from by rw [if_pos hid]]
            refine ⟨hk, ?_, ih fs hrest⟩
            rw [if_pos (hk ▸ hid)]
            exact ⟨nid, rfl⟩
          · rw [show (if (k2, v2).1 = S "id" then ((k2, v2).1, Json.str nid) else (k2, v2)) =
              (k2, v2) from by rw [if_neg hid]]
            refine ⟨hk, ?_, ih fs hrest⟩
            rw [if_neg (hk ▸ hid)]
            exact hv

theorem add_ids_obj_eq (g : List CStr → CStr) (es : List (CStr × Json)) (ex : List CStr) :
    add_ids_to_nodes g (Json.obj es) ex =
      (if hasKey es (S "type") && !truthy (getVal es (S "id")) then
        (Json.obj (setKey (addIdsEntries g es (g ex :: ex)).1 (S "id") (Json.str (g ex))),
          (addIdsEntries g es (g ex :: ex)).2)
      else (Json.obj (addIdsEntries g es ex).1, (addIdsEntries g es ex).2)) := rfl

/-- Claim C10: frame property of `add_ids_to_nodes`.  For every
generator, tree and pre-existing id set, the output stands in the frame
relation to the input: ids are added exactly at type-bearing dicts
without a truthy id (replacing a falsy `id` value in place, else
appending the entry), all other keys and values are untouched apart from
the same insertions below them, and nodes that already carry a truthy
(scalar, in particular string) id keep that exact id. -/
theorem C10_frame_property (g : List CStr → CStr) (t : Json) (ex : List CStr) :
    frameRel t (add_ids_to_nodes g t ex).1 := by
  have main := add_ids_to_nodes.mutual_induct g
    (fun t ex => frameRel t (add_ids_to_nodes g t ex).1)
    (fun xs ex => frameListRel xs (addIdsArr g xs ex).1)
    (fun es ex => frameEntriesSame es (addIdsEntries g es ex).1)
  refine (main ?_ ?_ ?_ ?_ ?_ ?_ ?_ ?_).1 t ex
  · -- obj node receiving an id
    intro es ex hcond nid ih
    rw [add_ids_obj_eq, if_pos hcond]
    show if hasKey es (S "type") && !truthy (getVal es (S "id")) then _ else _
    rw [if_pos hcond]
    by_cases hid : hasKey es (S "id") = true
    · have hid2 : hasKey (addIdsEntries g es (g ex :: ex)).1 (S "id") = true := by
        rw [hasKey_addIdsEntries]
        exact hid
      have hset : setKey (addIdsEntries g es (g ex :: ex)).1 (S "id") (Json.str (g ex)) =
          (addIdsEntries g es (g ex :: ex)).1.map
            (fun e => if e.1 = S "id" then (e.1, Json.str (g ex)) else e) := by
        unfold setKey
        rw [if_pos hid2]
      rw [hset]
      exact Or.inl ⟨hid, frameEntriesNewId_of_setKeyMap es _ ih⟩
    · have hid2 : ¬ hasKey (addIdsEntries g es (g ex :: ex)).1 (S "id") = true := by
        rw [hasKey_addIdsEntries]
        exact hid
      have hset : setKey (addIdsEntries g es (g ex :: ex)).1 (S "id") (Json.str (g ex)) =
          (addIdsEntries g es (g ex :: ex)).1 ++ [(S "id", Json.str (g ex))] := by
        unfold setKey
        rw [if_neg hid2]
      rw [hset]
      exact Or.inr ⟨Bool.not_eq_true _ ▸ hid, (addIdsEntries g es (g ex :: ex)).1, g ex,
        rfl, ih⟩
  · -- obj node keeping its entries
    intro es ex hcond ih
    rw [add_ids_obj_eq, if_neg hcond]
    show if hasKey es (S "type") && !truthy (getVal es (S "id")) then _ else _
    rw [if_neg hcond]
    exact ih
  · -- array node
    intro xs ex ih
    exact ih
  · -- scalar node
    intro j ex hobj harr
    rcases j with s | n2 | b | _ | xs | es
    case obj => exact (hobj _ rfl).elim
    case arr => exact (harr _ rfl).elim
    all_goals exact rfl
  · intro ex
    exact trivial
  · intro x xs ex p ih1 ih2
    exact ⟨ih1, ih2⟩
  · intro ex
    exact trivial
  · intro k v es ex p ih1 ih3
    exact ⟨rfl, ih1, ih3⟩

/-! ## Claim C3: id uniqueness after `assign_ids` -/

/-! Every type-bearing dict carries a truthy id. -/
mutual
def typedIdsOk (t : Json) : Bool :=
  match t with
  | .obj es => (!(hasKey es (S "type")) || truthy (getVal es (S "id"))) && typedIdsOkEntries es
  | .arr xs => typedIdsOkList xs
  | _ => true
def typedIdsOkList (xs : List Json) : Bool :=
  match xs with
  | [] => true
  | x :: xs => typedIdsOk x && typedIdsOkList xs
def typedIdsOkEntries (es : List (CStr × Json)) : Bool :=
  match es with
  | [] => true
  | (_, v) :: es => typedIdsOk v && typedIdsOkEntries es
end

/-! The string `id` values of all dict nodes, in traversal order. -/
mutual
def collectIds (t : Json) : List CStr :=
  match t with
  | .obj es =>
      (match getVal es (S "id") with
       | some (.str s) => [s]
       | _ => []) ++ collectIdsEntries es
  | .arr xs => collectIdsList xs
  | _ => []
def collectIdsList (xs : List Json) : List CStr :=
  match xs with
  | [] => []
  | x :: xs => collectIds x ++ collectIdsList xs
def collectIdsEntries (es : List (CStr × Json)) : List CStr :=
  match es with
  | [] => []
  | (_, v) :: es => collectIds v ++ collectIdsEntries es
end

/-- The total length of the strings in the existing-id set. -/
def exTotalLen (ex : List CStr) : Nat := (ex.map List.length).sum

/-- A generator satisfying the retry-loop contract of
`_generate_random_hex_id` that returns `"0001"` whenever possible. -/
def gFresh : List CStr → CStr := fun ex =>
  if S "0001" ∈ ex then List.replicate (exTotalLen ex + 1) 'a' else S "0001"

theorem mem_length_le_exTotalLen {s : CStr} {ex : List CStr} (h : s ∈ ex) :
    s.length ≤ exTotalLen ex := by
  unfold exTotalLen
  exact List.single_le_sum (fun x _ => Nat.zero_le x) _ (List.mem_map_of_mem List.length h)

theorem gFresh_not_mem : ∀ ex, gFresh ex ∉ ex := by
  intro ex hmem
  unfold gFresh at hmem
  by_cases h : S "0001" ∈ ex
  · rw [if_pos h] at hmem
    have hle := mem_length_le_exTotalLen hmem
    rw [List.length_replicate] at hle
    omega
  · rw [if_neg h] at hmem
    exact h hmem

theorem gFresh_ne_nil : ∀ ex, gFresh ex ≠ [] := by
  intro ex h
  unfold gFresh at h
  by_cases h2 : S "0001" ∈ ex
  · rw [if_pos h2] at h
    have := congrArg List.length h
    rw [List.length_replicate] at this
    simp at this
  · rw [if_neg h2] at h
    cases h

/-- A tree with a pre-existing id `0001` next to an id-less node. -/
def c3tree : Json :=
  .arr [.obj [(S "type", .str (S "a")), (S "id", .str (S "0001"))],
        .obj [(S "type", .str (S "b"))]]

/-- Claim C3: id uniqueness.  The claim promises that after
`assign_ids(T, {})` no two nodes share an id, including pre-existing
ids.  Counterexample: pre-existing ids are never added to
`existing_ids`, so a generator satisfying the retry-loop contract
(never return a member of the set it is given, always return a nonempty
string) can hand a fresh-for-the-set id that collides with an id already
on the tree. -/
theorem C3_id_uniqueness_counterexample :
    (∀ ex, gFresh ex ∉ ex) ∧ (∀ ex, gFresh ex ≠ []) ∧
    collectIds (add_ids_to_nodes gFresh c3tree []).1 = [S "0001", S "0001"] ∧
    ¬ (collectIds (add_ids_to_nodes gFresh c3tree []).1).Nodup := by
  refine ⟨gFresh_not_mem, gFresh_ne_nil, rfl, ?_⟩
  rw [(rfl : collectIds (add_ids_to_nodes gFresh c3tree []).1 = [S "0001", S "0001"])]
  decide

theorem add_ids_nodup (g : List CStr → CStr) (hg : ∀ ex, g ex ∉ ex) :
    ∀ (t : Json) (ex : List CStr), ex.Nodup →
      (add_ids_to_nodes g t ex).2.Nodup ∧ ex <:+ (add_ids_to_nodes g t ex).2 := by
  have main := add_ids_to_nodes.mutual_induct g
    (fun t ex => ex.Nodup →
      (add_ids_to_nodes g t ex).2.Nodup ∧ ex <:+ (add_ids_to_nodes g t ex).2)
    (fun xs ex => ex.Nodup →
      (addIdsArr g xs ex).2.Nodup ∧ ex <:+ (addIdsArr g xs ex).2)
    (fun es ex => ex.Nodup →
      (addIdsEntries g es ex).2.Nodup ∧ ex <:+ (addIdsEntries g es ex).2)
  refine (main ?_ ?_ ?_ ?_ ?_ ?_ ?_ ?_).1
  · intro es ex hcond nid ih hex
    rw [add_ids_obj_eq, if_pos hcond]
    have hex2 : (g ex :: ex).Nodup := List.nodup_cons.2 ⟨hg ex, hex⟩
    obtain ⟨h1, h2⟩ := ih hex2
    exact ⟨h1, (List.suffix_cons (g ex) ex).trans h2⟩
  · intro es ex hcond ih hex
    rw [add_ids_obj_eq, if_neg hcond]
    exact ih hex
  · intro xs ex ih hex
    exact ih hex
  · intro j ex hobj harr hex
    rcases j with s | n2 | b | _ | xs | es
    case obj => exact (hobj _ rfl).elim
    case arr => exact (harr _ rfl).elim
    all_goals exact ⟨hex, List.suffix_refl ex⟩
  · intro ex hex
    exact ⟨hex, List.suffix_refl ex⟩
  · intro x xs ex p ih1 ih2 hex
    obtain ⟨h1, h2⟩ := ih1 hex
    obtain ⟨h3, h4⟩ := ih2 h1
    exact ⟨h3, h2.trans h4⟩
  · intro ex hex
    exact ⟨hex, List.suffix_refl ex⟩
  · intro k v es ex p ih1 ih3 hex
    obtain ⟨h1, h2⟩ := ih1 hex
    obtain ⟨h3, h4⟩ := ih3 h1
    exact ⟨h3, h2.trans h4⟩

theorem typedIdsOkEntries_append {es fs : List (CStr × Json)}
    (h1 : typedIdsOkEntries es = true) (h2 : typedIdsOkEntries fs = true) :
    typedIdsOkEntries (es ++ fs) = true := by
  induction es with
  | nil => exact h2
  | cons e es ih =>
      rcases e with ⟨k1, v1⟩
      obtain ⟨h3, h4⟩ := Bool.and_eq_true_iff.1 h1
      show (typedIdsOk v1 && typedIdsOkEntries (es ++ fs)) = true
      rw [Bool.and_eq_true_iff]
      exact ⟨h3, ih h4⟩

theorem typedIdsOkEntries_setKey {es : List (CStr × Json)} {k : CStr} {v : Json}
    (h : typedIdsOkEntries es = true) (hv : typedIdsOk v = true) :
    typedIdsOkEntries (setKey es k v) = true := by
  unfold setKey
  by_cases hk : hasKey es k = true
  · rw [if_pos hk]
    clear hk
    induction es with
    | nil => rfl
    | cons e es ih =>
        rcases e with ⟨k1, v1⟩
        obtain ⟨h1, h2⟩ := Bool.and_eq_true_iff.1 h
        rw [List.map_cons]
        by_cases hk1 : k1 = k
        · rw [show (if (k1, v1).1 = k then ((k1, v1).1, v) else (k1, v1)) = (k1, v) from by
            rw [if_pos hk1]]
          show (typedIdsOk v && typedIdsOkEntries (es.map
            (fun e => if e.1 = k then (e.1, v) else e))) = true
          rw [Bool.and_eq_true_iff]
          exact ⟨hv, ih h2⟩
        · rw [show (if (k1, v1).1 = k then ((k1, v1).1, v) else (k1, v1)) = (k1, v1) from by
            rw [if_neg hk1]]
          show (typedIdsOk v1 && typedIdsOkEntries (es.map
            (fun e => if e.1 = k then (e.1, v) else e))) = true
          rw [Bool.and_eq_true_iff]
          exact ⟨h1, ih h2⟩
  · rw [if_neg hk]
    refine typedIdsOkEntries_append h ?_
    show (typedIdsOk v && true) = true
    rw [Bool.and_eq_true_iff]
    exact ⟨hv, rfl⟩

theorem truthy_add_ids {g : List CStr → CStr} {v : Json} {ex : List CStr}
    (h : truthy (some v) = true) : truthy (some (add_ids_to_nodes g v ex).1) = true := by
  rcases v with s | n2 | b | _ | xs | es
  case str => exact h
  case num => exact h
  case bool => exact h
  case null => exact h
  case arr =>
    have hne : xs ≠ [] := by
      intro h2
      rw [h2] at h
      exact absurd h (by decide)
    have hne2 : (addIdsArr g xs ex).1 ≠ [] := by
      intro h2
      have h3 := congrArg List.length h2
      rw [addIdsArr_length] at h3
      exact hne (List.length_eq_zero.1 h3)
    show (!(addIdsArr g xs ex).1.isEmpty) = true
    rcases h4 : (addIdsArr g xs ex).1 with _ | ⟨y, ys⟩
    · exact absurd h4 hne2
    · rfl
  case obj =>
    have hne : es ≠ [] := by
      intro h2
      rw [h2] at h
      exact absurd h (by decide)
    rw [add_ids_obj_eq]
    by_cases hcond : (hasKey es (S "type") && !truthy (getVal es (S "id"))) = true
    · rw [if_pos hcond]
      have hA : (addIdsEntries g es (g ex :: ex)).1 ≠ [] := by
        intro h2
        have h3 := congrArg List.length h2
        rw [addIdsEntries_length] at h3
        exact hne (List.length_eq_zero.1 h3)
      have hs := setKey_ne_nil (k := S "id") (v := Json.str (g ex)) hA
      show (!(setKey (addIdsEntries g es (g ex :: ex)).1 (S "id") (Json.str (g ex))).isEmpty)
        = true
      rcases h4 : setKey (addIdsEntries g es (g ex :: ex)).1 (S "id") (Json.str (g ex))
        with _ | ⟨y, ys⟩
      · exact absurd h4 hs
      · rfl
    · rw [if_neg hcond]
      have hA : (addIdsEntries g es ex).1 ≠ [] := by
        intro h2
        have h3 := congrArg List.length h2
        rw [addIdsEntries_length] at h3
        exact hne (List.length_eq_zero.1 h3)
      show (!(addIdsEntries g es ex).1.isEmpty) = true
      rcases h4 : (addIdsEntries g es ex).1 with _ | ⟨y, ys⟩
      · exact absurd h4 hA
      · rfl

theorem add_ids_typedOk (g : List CStr → CStr) (hne : ∀ ex, g ex ≠ []) :
    ∀ (t : Json) (ex : List CStr), typedIdsOk (add_ids_to_nodes g t ex).1 = true := by
  have main := add_ids_to_nodes.mutual_induct g
    (fun t ex => typedIdsOk (add_ids_to_nodes g t ex).1 = true)
    (fun xs ex => typedIdsOkList (addIdsArr g xs ex).1 = true)
    (fun es ex => typedIdsOkEntries (addIdsEntries g es ex).1 = true)
  refine (main ?_ ?_ ?_ ?_ ?_ ?_ ?_ ?_).1
  · intro es ex hcond nid ih
    rw [add_ids_obj_eq, if_pos hcond]
    show ((!(hasKey (setKey (addIdsEntries g es (g ex :: ex)).1 (S "id")
        (Json.str (g ex))) (S "type")) ||
      truthy (getVal (setKey (addIdsEntries g es (g ex :: ex)).1 (S "id")
        (Json.str (g ex))) (S "id"))) &&
      typedIdsOkEntries (setKey (addIdsEntries g es (g ex :: ex)).1 (S "id")
        (Json.str (g ex)))) = true
    rw [Bool.and_eq_true_iff]
    constructor
    · rw [getVal_setKey_self, Bool.or_eq_true_iff]
      right
      show (!(g ex).isEmpty) = true
      rcases h4 : g ex with _ | ⟨c, cs⟩
      · exact absurd h4 (hne ex)
      · rfl
    · exact typedIdsOkEntries_setKey ih rfl
  · intro es ex hcond ih
    rw [add_ids_obj_eq, if_neg hcond]
    show ((!(hasKey (addIdsEntries g es ex).1 (S "type")) ||
      truthy (getVal (addIdsEntries g es ex).1 (S "id"))) &&
      typedIdsOkEntries (addIdsEntries g es ex).1) = true
    rw [Bool.and_eq_true_iff]
    refine ⟨?_, ih⟩
    by_cases hty : hasKey es (S "type") = true
    · have htr : truthy (getVal es (S "id")) = true := by
        by_contra hf
        rw [Bool.not_eq_true] at hf
        exact hcond (by rw [hty, hf]; rfl)
      rcases hv : getVal es (S "id") with _ | v
      · rw [hv] at htr
        cases htr
      · obtain ⟨ex2, hget⟩ := getVal_addIdsEntries_some hv ex
        rw [hget, Bool.or_eq_true_iff]
        right
        rw [hv] at htr
        exact truthy_add_ids htr
    · rw [Bool.or_eq_true_iff]
      left
      rw [Bool.not_eq_true] at hty
      rw [Bool.not_eq_true', hasKey_addIdsEntries]
      exact hty
  · intro xs ex ih
    exact ih
  · intro j ex hobj harr
    rcases j with s | n2 | b | _ | xs | es
    case obj => exact (hobj _ rfl).elim
    case arr => exact (harr _ rfl).elim
    all_goals rfl
  · intro ex
    rfl
  · intro x xs ex p ih1 ih2
    show (typedIdsOk (add_ids_to_nodes g x ex).1 &&
      typedIdsOkList (addIdsArr g xs (add_ids_to_nodes g x ex).2).1) = true
    rw [Bool.and_eq_true_iff]
    exact ⟨ih1, ih2⟩
  · intro ex
    rfl
  · intro k v es ex p ih1 ih3
    show (typedIdsOk (add_ids_to_nodes g v ex).1 &&
      typedIdsOkEntries (addIdsEntries g es (add_ids_to_nodes g v ex).2).1) = true
    rw [Bool.and_eq_true_iff]
    exact ⟨ih1, ih3⟩

/-- Claim C3 (amended): after `assign_ids(T, {})` with a generator
satisfying the retry-loop contract, every type-bearing node carries a
truthy id, and the ids generated during the call (exactly the contents
of the returned `existing_ids` set, which starts empty and receives
only newly generated ids) are pairwise distinct.  Uniqueness against
ids already present on the tree is not guaranteed, since pre-existing
ids are never added to `existing_ids`. -/
theorem C3_id_uniqueness_amended (g : List CStr → CStr) (t : Json)
    (hg : ∀ ex, g ex ∉ ex) (hne : ∀ ex, g ex ≠ []) :
    typedIdsOk (add_ids_to_nodes g t []).1 = true ∧
    (add_ids_to_nodes g t []).2.Nodup :=
  ⟨add_ids_typedOk g hne t [], (add_ids_nodup g hg t [] List.nodup_nil).1⟩

/-- Witness for C3 (amended) at the concrete collision tree. -/
theorem C3_id_uniqueness_amended_witness :
    (∀ ex, gFresh ex ∉ ex) ∧ (∀ ex, gFresh ex ≠ []) ∧
    (typedIdsOk (add_ids_to_nodes gFresh c3tree []).1 = true ∧
      (add_ids_to_nodes gFresh c3tree []).2.Nodup) :=
  ⟨gFresh_not_mem, gFresh_ne_nil,
    C3_id_uniqueness_amended gFresh c3tree gFresh_not_mem gFresh_ne_nil⟩

end DocPipeline
